import Mathlib

/-!
Verification of the AgentDock tool-invocation protocol.

This file embeds the core of the repository (BaseAgent.processToolActions,
BaseAgent.checkRequiredParameters, BaseAgent.enhanceToolParameters,
BaseAgent.getActionInfo, BaseAgent.processQuery, the GitHub and Slack agents'
fast-path pattern matchers) as executable Lean definitions, and proves the
specification claims about them.

Modelling conventions:
  - JavaScript runtime values arising from JSON are modelled by `JValue`
    (numbers as `Int`: every number the protocol manipulates is an integer
    literal; floats never arise in the modelled code paths).
  - `JSON.parse` is modelled by `jsonParse`, a recursive-descent parser for
    the JSON fragment the code exercises: null / booleans / integer numerals /
    strings with the basic escapes / arrays / objects, with whitespace.
    Unicode escapes and fraction/exponent numerals are outside the model.
    Duplicate object keys follow the JavaScript rule: the later value wins,
    the key keeps its first position.
  - External collaborators (the Groq model-completion client, the Octokit and
    Slack network clients) are passed in as values/functions: a completion is
    an `Except String String` (the outcome of the generate call), a tool's
    executor is a function returning `Except String JValue` (a rejected
    promise is `.error msg`).
  - JavaScript exceptions that the source catches are modelled by the
    corresponding `Except`/branch structure; property access on `undefined`
    inside response *formatting* (which the source would surface as a caught
    TypeError) is totalised by rendering "undefined", as JS string
    interpolation does for defined-but-absent fields.
-/

namespace AgentDock

/-- A JavaScript value produced by JSON parsing (numbers restricted to
integers, the only numerals the modelled code paths produce or consume). -/
inductive JValue where
  | null : JValue
  | bool : Bool → JValue
  | num : Int → JValue
  | str : String → JValue
  | arr : List JValue → JValue
  | obj : List (String × JValue) → JValue

/-- JavaScript truthiness of a value (`undefined` is handled by callers via
`Option`). -/
def jsTruthy : JValue → Bool
  | .null => false
  | .bool b => b
  | .num n => n != 0
  | .str s => s != ""
  | .arr _ => true
  | .obj _ => true

/-- Property read on a JS object: first binding wins (object key lists built
by the parser or by assignment have unique keys). Non-objects expose none of
the properties the modelled code reads. -/
def jsGet : JValue → String → Option JValue
  | .obj ms, k => (ms.find? (fun p => p.1 == k)).map (fun p => p.2)
  | _, _ => none

/-- Assignment `o[k] = v` on a JS object's binding list: an existing key keeps
its position and receives the new value, a new key is appended. -/
def setProp : List (String × JValue) → String → JValue → List (String × JValue)
  | [], k, v => [(k, v)]
  | (k0, v0) :: t, k, v =>
    if k0 == k then (k0, v) :: t else (k0, v0) :: setProp t k v

/-- Lookup in a binding list (first match). -/
def propGet (ms : List (String × JValue)) (k : String) : Option JValue :=
  (ms.find? (fun p => p.1 == k)).map (fun p => p.2)

/-- Object spread `{...x}`: objects copy their bindings, arrays and strings
spread index keys, primitives spread nothing. -/
def spreadFields : JValue → List (String × JValue)
  | .obj ms => ms
  | .arr vs => vs.enum.map (fun p => (toString p.1, p.2))
  | .str s => s.toList.enum.map (fun p => (toString p.1, JValue.str (String.mk [p.2])))
  | _ => []

/-! ## A model of JSON.parse and a canonical serializer -/

/-- JSON whitespace. -/
def jsWsChar (c : Char) : Bool := c == ' ' || c == '\t' || c == '\n' || c == '\r'

/-- Drop leading JSON whitespace. -/
def dropJsWs : List Char → List Char
  | c :: cs => if jsWsChar c then dropJsWs cs else c :: cs
  | [] => []

/-- Decimal digit test. -/
def digitChar (c : Char) : Bool := '0' ≤ c && c ≤ '9'

/-- Split off the maximal leading run of decimal digits. -/
def grabDigits : List Char → List Char × List Char
  | c :: cs =>
    if digitChar c then
      let (ds, r) := grabDigits cs
      (c :: ds, r)
    else ([], c :: cs)
  | [] => ([], [])

/-- Numeric value of a digit run. -/
def digitsVal (ds : List Char) : Nat :=
  ds.foldl (fun a c => a * 10 + (c.toNat - 48)) 0

/-- Scan an optionally-signed integer numeral. -/
def scanIntStr : List Char → Option (Int × List Char)
  | '-' :: r =>
    match grabDigits r with
    | ([], _) => none
    | (ds, rest) => some (-(digitsVal ds : Int), rest)
  | cs =>
    match grabDigits cs with
    | ([], _) => none
    | (ds, rest) => some ((digitsVal ds : Int), rest)

/-- The basic JSON escapes (the model omits unicode escapes). -/
def unescapeChar : Char → Option Char
  | 'n' => some '\n'
  | 't' => some '\t'
  | 'r' => some '\r'
  | 'b' => some (Char.ofNat 8)
  | 'f' => some (Char.ofNat 12)
  | '"' => some '"'
  | '\\' => some '\\'
  | '/' => some '/'
  | _ => none

/-- Scan a string body after the opening quote, accumulating in reverse. -/
def scanStringBody (acc : List Char) : List Char → Option (String × List Char)
  | [] => none
  | c :: r =>
    if c == '"' then some (String.mk acc.reverse, r)
    else if c == '\\' then
      match r with
      | [] => none
      | e :: r2 =>
        match unescapeChar e with
        | some ch => scanStringBody (ch :: acc) r2
        | none => none
    else scanStringBody (c :: acc) r

/-- Duplicate object keys collapse by repeated assignment, as in JS. -/
def dedupFields (ms : List (String × JValue)) : List (String × JValue) :=
  ms.foldl (fun acc p => setProp acc p.1 p.2) []

mutual

/-- Recursive-descent JSON value parser (fuel-indexed for totality). -/
def parseJVal : Nat → List Char → Option (JValue × List Char)
  | 0, _ => none
  | fuel + 1, cs =>
    match dropJsWs cs with
    | 'n' :: 'u' :: 'l' :: 'l' :: r => some (.null, r)
    | 't' :: 'r' :: 'u' :: 'e' :: r => some (.bool true, r)
    | 'f' :: 'a' :: 'l' :: 's' :: 'e' :: r => some (.bool false, r)
    | '"' :: r =>
      match scanStringBody [] r with
      | some (s, r2) => some (.str s, r2)
      | none => none
    | '[' :: r =>
      match dropJsWs r with
      | ']' :: r2 => some (.arr [], r2)
      | r2 =>
        match parseJItems fuel r2 with
        | some (vs, r3) => some (.arr vs, r3)
        | none => none
    | '{' :: r =>
      match dropJsWs r with
      | '}' :: r2 => some (.obj [], r2)
      | r2 =>
        match parseJFields fuel r2 with
        | some (ms, r3) => some (.obj (dedupFields ms), r3)
        | none => none
    | c :: r =>
      if c == '-' || digitChar c then
        match scanIntStr (c :: r) with
        | some (n, r2) => some (.num n, r2)
        | none => none
      else none
    | [] => none

/-- One-or-more comma-separated array items, consuming the closing bracket. -/
def parseJItems : Nat → List Char → Option (List JValue × List Char)
  | 0, _ => none
  | fuel + 1, cs =>
    match parseJVal fuel cs with
    | none => none
    | some (v, r) =>
      match dropJsWs r with
      | ',' :: r2 =>
        match parseJItems fuel r2 with
        | some (vs, r3) => some (v :: vs, r3)
        | none => none
      | ']' :: r2 => some ([v], r2)
      | _ => none

/-- One-or-more key-value members, consuming the closing brace. -/
def parseJFields : Nat → List Char → Option (List (String × JValue) × List Char)
  | 0, _ => none
  | fuel + 1, cs =>
    match dropJsWs cs with
    | '"' :: r =>
      match scanStringBody [] r with
      | none => none
      | some (k, r1) =>
        match dropJsWs r1 with
        | ':' :: r2 =>
          match parseJVal fuel r2 with
          | none => none
          | some (v, r3) =>
            match dropJsWs r3 with
            | ',' :: r4 =>
              match parseJFields fuel r4 with
              | some (ms, r5) => some ((k, v) :: ms, r5)
              | none => none
            | '}' :: r4 => some ([(k, v)], r4)
            | _ => none
        | _ => none
    | _ => none

end

/-- Model of JSON.parse on the text of a tag's parameter capture: parse one
value and insist nothing but whitespace remains. -/
def jsonParse (cs : List Char) : Option JValue :=
  match parseJVal (cs.length + 1) cs with
  | some (v, r) => if (dropJsWs r).isEmpty then some v else none
  | none => none

/-- The decimal digit character for a value below ten. -/
def digitOf (n : Nat) : Char := Char.ofNat (48 + n)

/-- Accumulator worker for decimal digit characters; the fuel dominates the
number, so the zero-fuel branch is unreachable from `natDigitsL`. -/
def natDigitsAuxF : Nat → Nat → List Char → List Char
  | 0, _, acc => acc
  | fuel + 1, n, acc =>
    let acc2 := digitOf (n % 10) :: acc
    if n < 10 then acc2 else natDigitsAuxF fuel (n / 10) acc2

/-- Decimal digit characters of a natural number, most significant first. -/
def natDigitsL (n : Nat) : List Char := natDigitsAuxF (n + 1) n []

/-- Decimal characters of an integer. -/
def intChars (i : Int) : List Char :=
  if i < 0 then '-' :: natDigitsL i.natAbs else natDigitsL i.natAbs

/-- JSON escape of one character (the canonical serializer escapes the quote,
the backslash and the common control characters). -/
def escChar (c : Char) : List Char :=
  if c == '"' then ['\\', '"']
  else if c == '\\' then ['\\', '\\']
  else if c == '\n' then ['\\', 'n']
  else if c == '\t' then ['\\', 't']
  else if c == '\r' then ['\\', 'r']
  else [c]

mutual

/-- Modelled from the spec: the wire grammar's canonical JSON object literal
(the serialization direction of the round-trip property; the source has no
serializer, the model emits the whitespace-free form). -/
def serializeJ : JValue → List Char
  | .null => "null".toList
  | .bool true => "true".toList
  | .bool false => "false".toList
  | .num i => intChars i
  | .str s => '"' :: (s.toList.flatMap escChar ++ ['"'])
  | .arr vs => '[' :: (serItems vs ++ [']'])
  | .obj ms => '{' :: (serFields ms ++ ['}'])

/-- Serialized array items. -/
def serItems : List JValue → List Char
  | [] => []
  | v :: vs => serializeJ v ++ serSep vs

/-- Comma-separated continuation of array items. -/
def serSep : List JValue → List Char
  | [] => []
  | v :: vs => ',' :: (serializeJ v ++ serSep vs)

/-- Serialized object members. -/
def serFields : List (String × JValue) → List Char
  | [] => []
  | (k, v) :: ms =>
    ('"' :: (k.toList.flatMap escChar ++ ['"'])) ++ ':' :: (serializeJ v ++ serFieldSep ms)

/-- Comma-separated continuation of object members. -/
def serFieldSep : List (String × JValue) → List Char
  | [] => []
  | (k, v) :: ms =>
    ',' :: (('"' :: (k.toList.flatMap escChar ++ ['"'])) ++ ':' :: (serializeJ v ++ serFieldSep ms))

end

/-- Keys of a binding list are pairwise distinct. -/
def keysUniq : List (String × JValue) → Bool
  | [] => true
  | (k, _) :: t => !(t.any (fun p => p.1 == k)) && keysUniq t

mutual

/-- Well-formedness of a value as a parse result: object key lists are
duplicate-free at every level. -/
def wfJ : JValue → Bool
  | .null => true
  | .bool _ => true
  | .num _ => true
  | .str _ => true
  | .arr vs => wfItems vs
  | .obj ms => keysUniq ms && wfFields ms

/-- Well-formedness of array elements. -/
def wfItems : List JValue → Bool
  | [] => true
  | v :: vs => wfJ v && wfItems vs

/-- Well-formedness of member values. -/
def wfFields : List (String × JValue) → Bool
  | [] => true
  | (_, v) :: ms => wfJ v && wfFields ms

end

/-! ## The tag scanner

Model of the global regex
`\[TOOL_ACTION:([^:]+?)(?:[Tt]ool)?:([^:]+):([^\]]+)\]`
driven by repeated `exec`: the leftmost match at or after the previous
match's end, with the lazy tool group and the greedy optional suffix
resolving to "strip a final Tool/tool when a nonempty token remains". -/

/-- One extracted tag occurrence: the whole matched span and the three
capture groups (the tool capture is the lazy group, i.e. the token with an
optional trailing Tool/tool already stripped). -/
structure TagMatch where
  full : List Char
  toolRaw : List Char
  tool : List Char
  action : List Char
  params : List Char
  deriving Repr

/-- The literal tag opener. -/
def tagMarker : List Char :=
  ['[', 'T', 'O', 'O', 'L', '_', 'A', 'C', 'T', 'I', 'O', 'N', ':']

/-- Resolution of the lazy group plus greedy optional suffix against the
colon-free run: a final "Tool" or "tool" is dropped when at least one
character precedes it. -/
def stripToolSuffix (run : List Char) : List Char :=
  if 4 < run.length &&
      (run.drop (run.length - 4) == ['T', 'o', 'o', 'l'] ||
       run.drop (run.length - 4) == ['t', 'o', 'o', 'l']) then
    run.take (run.length - 4)
  else run

/-- Attempt the tag regex anchored at the head of the input; on success
return the match and the remaining input after the closing bracket. -/
def matchTagAt (s : List Char) : Option (TagMatch × List Char) :=
  if tagMarker.isPrefixOf s then
    let r0 := s.drop tagMarker.length
    let toolRun := r0.takeWhile (fun c => !(c == ':'))
    match r0.drop toolRun.length with
    | ':' :: r2 =>
      if toolRun.isEmpty then none
      else
        let actRun := r2.takeWhile (fun c => !(c == ':'))
        match r2.drop actRun.length with
        | ':' :: r3 =>
          if actRun.isEmpty then none
          else
            let parRun := r3.takeWhile (fun c => !(c == ']'))
            match r3.drop parRun.length with
            | ']' :: r4 =>
              if parRun.isEmpty then none
              else
                some ({ full := tagMarker ++ toolRun ++ ':' :: actRun ++ ':' :: parRun ++ [']'],
                        toolRaw := toolRun,
                        tool := stripToolSuffix toolRun,
                        action := actRun,
                        params := parRun }, r4)
            | _ => none
        | _ => none
    | _ => none
  else none

/-- Scanner worker: skip one character when the pattern fails at a position,
resume after the closing bracket when it succeeds (the semantics of repeated
`exec` with the `g` flag). Each step strictly shrinks the input
(`matchTagAt_rem_lt`), so fuel above the input length is never exhausted. -/
def extractTagsAux : Nat → List Char → List TagMatch
  | 0, _ => []
  | fuel + 1, s =>
    match matchTagAt s with
    | some (tg, rem) => tg :: extractTagsAux fuel rem
    | none =>
      match s with
      | [] => []
      | _ :: tl => extractTagsAux fuel tl

/-- All tag matches of a text, left to right. -/
def extractTags (s : List Char) : List TagMatch := extractTagsAux (s.length + 1) s

/-- Replace the first occurrence of a literal pattern (the semantics of
String.prototype.replace with a string argument, modulo replacement-pattern
dollar sequences, which never arise in the modelled markers). -/
def replaceOnce (s pat repl : List Char) : List Char :=
  if pat.isPrefixOf s then repl ++ s.drop pat.length
  else
    match s with
    | [] => []
    | c :: tl => c :: replaceOnce tl pat repl

/-- String-level wrapper for the in-place marker substitution. -/
def replaceOnceS (s : String) (pat : List Char) (repl : String) : String :=
  String.mk (replaceOnce s.toList pat repl.toList)

/-! ## Tools, schemas, validation, enhancement, dispatch -/

/-- One parameter descriptor of an action schema (only the truthiness of the
`required` field is consulted by the modelled code). -/
structure ParamInfo where
  required : Bool
  deriving Repr

/-- One action descriptor as returned by getAvailableActions: a name and,
when the descriptor carries a `parameters` object, its entries in order
(`none` models an absent/undefined field, `some []` an empty object or an
array-shaped schema whose entries carry no required flags). -/
structure ActionInfo where
  name : String
  parameters : Option (List (String × ParamInfo))

/-- A registered tool as the dispatcher sees it: its `name` property, its
stored constructor config's `name`, its class name, the GitHubTool repository
context fields, its action catalog when it exposes getAvailableActions, and
its executor (a rejected promise is `.error`). -/
structure ToolModel where
  name : String
  configName : String
  ctorName : String
  repoOwner : Option String
  repoName : Option String
  actions : Option (List ActionInfo)
  exec : String → JValue → Except String JValue

/-- Registry lookup (`this.tools.get`), exact on the map key. -/
def mapGet (tools : List (String × ToolModel)) (k : String) : Option ToolModel :=
  (tools.find? (fun p => p.1 == k)).map (fun p => p.2)

/-- BaseAgent.getActionInfo: the catalog entry for an action name, none when
the tool exposes no catalog or the name is absent. -/
def getActionInfo (tool : ToolModel) (actionName : String) : Option ActionInfo :=
  match tool.actions with
  | none => none
  | some actions => actions.find? (fun a => a.name == actionName)

/-- A required parameter counts as missing exactly when the provided value is
absent or null. -/
def isAbsentOrNull (params : JValue) (k : String) : Bool :=
  match jsGet params k with
  | none => true
  | some .null => true
  | some _ => false

/-- BaseAgent.checkRequiredParameters: the names of every schema-required
parameter whose provided value is absent or null, in schema order. -/
def checkRequiredParameters (actionInfo : Option ActionInfo) (params : JValue) : List String :=
  match actionInfo with
  | none => []
  | some ai =>
    match ai.parameters with
    | none => []
    | some plist =>
      plist.foldl
        (fun acc p => if p.2.required && isAbsentOrNull params p.1 then acc ++ [p.1] else acc)
        []

/-- Truthiness of an optional JS string (undefined or the empty string are
falsy). -/
def optStrTruthy : Option String → Bool
  | none => false
  | some s => s != ""

/-- Truthiness of a looked-up property (undefined is falsy). -/
def truthyP (ms : List (String × JValue)) (k : String) : Bool :=
  match propGet ms k with
  | none => false
  | some v => jsTruthy v

/-- The `owner` assignment of the GitHubTool contextual layer: applied when
the current value is falsy and the tool's context value is truthy. -/
def ghOwnerFill (tool : ToolModel) (e0 : List (String × JValue)) : List (String × JValue) :=
  if !(truthyP e0 "owner") && optStrTruthy tool.repoOwner then
    setProp e0 "owner" (.str (tool.repoOwner.getD ""))
  else e0

/-- The `repo` assignment of the GitHubTool contextual layer. -/
def ghRepoFill (tool : ToolModel) (eo : List (String × JValue)) : List (String × JValue) :=
  if !(truthyP eo "repo") && optStrTruthy tool.repoName then
    setProp eo "repo" (.str (tool.repoName.getD ""))
  else eo

/-- The tool-specific contextual layer of enhanceToolParameters: for a
GitHubTool, assign `owner`/`repo` from the tool's repository context whenever
the current value is falsy and the context value is truthy. -/
def ghContextFill (tool : ToolModel) (e0 : List (String × JValue)) : List (String × JValue) :=
  if tool.ctorName == "GitHubTool" then ghRepoFill tool (ghOwnerFill tool e0)
  else e0

/-- The ambient layer of enhanceToolParameters: each caller-supplied entry in
order fills its key only when the key is still absent. -/
def ambientFill (toolParams : List (String × JValue)) (e1 : List (String × JValue)) :
    List (String × JValue) :=
  toolParams.foldl
    (fun acc p => if (propGet acc p.1).isNone then setProp acc p.1 p.2 else acc)
    e1

/-- BaseAgent.enhanceToolParameters: copy the tag's parameters, then for a
GitHubTool fill `owner`/`repo` from the tool's repository context whenever the
current value is falsy, then fill from the caller's ambient parameters every
key that is still absent. -/
def enhanceToolParameters (tool : ToolModel) (_actionName : String) (params : JValue)
    (toolParams : List (String × JValue)) : List (String × JValue) :=
  ambientFill toolParams (ghContextFill tool (spreadFields params))

/-- The query outcome: the rewritten response and the keyed result map. -/
structure Outcome where
  response : String
  toolResults : List (String × JValue)

/-- JS String.prototype.toLowerCase (over the characters, as the kernel can
evaluate; the modelled names are ASCII). -/
def lowerStr (s : String) : String := String.mk (s.toList.map Char.toLower)

/-- The inline marker for a tag whose parameter text is not valid JSON. -/
def invalidParamsMarker (toolName actionName : String) : String :=
  "[Error: Invalid parameter format for " ++ toolName ++ "." ++ actionName ++ "]"

/-- The inline marker for an unregistered tool. -/
def notFoundMarker (toolName actionName : String) : String :=
  "[" ++ toolName ++ " " ++ actionName ++ " result: Tool not found]"

/-- The inline marker carrying a caught error's message. -/
def errorMarker (toolName actionName msg : String) : String :=
  "[" ++ toolName ++ " " ++ actionName ++ " result: Error - " ++ msg ++ "]"

/-- The inline marker for a successful execution. -/
def successMarker (resultKey : String) : String :=
  "[" ++ resultKey ++ " completed successfully]"

/-- The thrown message when required parameters are missing. -/
def missingParamsMsg (actionName : String) (missing : List String) : String :=
  "Missing required parameters for " ++ actionName ++ ": " ++ String.intercalate ", " missing

/-- The TypeError message raised when the case-insensitive existence check
passes but the exact map-key retrieval yields undefined, so the subsequent
property access throws. -/
def undefinedToolMsg : String :=
  "Cannot read properties of undefined (reading 'getAvailableActions')"

/-- The processing of one extracted tag inside the scan loop of
BaseAgent.processToolActions: parse the parameter text, check registry
membership case-insensitively on the configured tool name, retrieve by exact
map key, validate required parameters on the tag's own parameters, enhance,
execute, and substitute the appropriate marker into the evolving response. -/
def processOneTag (tools : List (String × ToolModel)) (toolParams : List (String × JValue))
    (st : Outcome) (tg : TagMatch) : Outcome :=
  let toolName := String.mk tg.tool
  let actionName := String.mk tg.action
  match jsonParse tg.params with
  | none =>
    { st with response := replaceOnceS st.response tg.full (invalidParamsMarker toolName actionName) }
  | some params =>
    if (tools.map (fun p => p.2)).any (fun t => lowerStr t.configName == lowerStr toolName) then
      match mapGet tools toolName with
      | none =>
        { st with response :=
            replaceOnceS st.response tg.full (errorMarker toolName actionName undefinedToolMsg) }
      | some tool =>
        let actionInfo := getActionInfo tool actionName
        let missing := checkRequiredParameters actionInfo params
        if missing.isEmpty then
          let enhanced := enhanceToolParameters tool actionName params toolParams
          match tool.exec actionName (.obj enhanced) with
          | .error msg =>
            { st with response :=
                replaceOnceS st.response tg.full (errorMarker toolName actionName msg) }
          | .ok result =>
            let resultKey := toolName ++ "_" ++ actionName
            { response := replaceOnceS st.response tg.full (successMarker resultKey),
              toolResults := setProp st.toolResults resultKey result }
        else
          { st with response := replaceOnceS st.response tg.full (errorMarker toolName actionName (missingParamsMsg actionName missing)) }
    else
      { st with response := replaceOnceS st.response tg.full (notFoundMarker toolName actionName) }

/-- The scan loop over the tag list. -/
def processTags (tools : List (String × ToolModel)) (toolParams : List (String × JValue))
    (st : Outcome) (tags : List TagMatch) : Outcome :=
  tags.foldl (processOneTag tools toolParams) st

/-- BaseAgent.processToolActions: extract every tag of the completion text in
order and process them sequentially against the evolving response text and
result map. -/
def processToolActions (tools : List (String × ToolModel)) (toolParams : List (String × JValue))
    (response : String) : Outcome :=
  processTags tools toolParams ⟨response, []⟩ (extractTags response.toList)

namespace BaseAgent

/-- BaseAgent.processQuery, with the model-completion collaborator call's
outcome passed in: a failed completion propagates, an obtained completion is
processed for tool actions and always yields an outcome. -/
def processQuery (tools : List (String × ToolModel)) (toolParams : List (String × JValue))
    (completion : Except String String) : Except String Outcome :=
  match completion with
  | .error e => .error e
  | .ok text => .ok (processToolActions tools toolParams text)

end BaseAgent

/-! ## Fast-path pattern matchers

Models of the agents' intent regexes, matched case-insensitively at the
leftmost position (captures keep the original casing, as JS captures do). -/

/-- Consume a lowercase pattern case-insensitively; return the remainder. -/
def icEatL : List Char → List Char → Option (List Char)
  | [], s => some s
  | _ :: _, [] => none
  | p :: ps, c :: cs => if c.toLower == p then icEatL ps cs else none

/-- Consume a lowercase pattern string case-insensitively. -/
def icEat (pat : String) (s : List Char) : Option (List Char) :=
  icEatL pat.toList s

/-- First alternative (in order) that consumes; the modelled alternations are
pairwise prefix-incompatible, so this is the regex alternation semantics. -/
def altEat : List String → List Char → Option (List Char)
  | [], _ => none
  | a :: rest, s =>
    match icEat a s with
    | some r => some r
    | none => altEat rest s

/-- An optional group: try with the group first (greedy), then without. -/
def optEat (pat : String) (k : List Char → Option α) (s : List Char) : Option α :=
  match icEat pat s with
  | some r =>
    match k r with
    | some v => some v
    | none => k s
  | none => k s

/-- JS word character (\w). -/
def isWordChar (c : Char) : Bool :=
  ('a' ≤ c && c ≤ 'z') || ('A' ≤ c && c ≤ 'Z') || digitChar c || c == '_'

/-- A character the JS dot matches (anything but line terminators). -/
def isDotChar (c : Char) : Bool :=
  !(c == '\n' || c == '\r' || c.toNat == 0x2028 || c.toNat == 0x2029)

/-- An optional hash mark followed by a captured greedy digit run, read as a
base-10 number (the parseInt of the capture). -/
def hashDigits (r : List Char) : Option Nat :=
  let r2 := match r with | '#' :: t => t | _ => r
  let ds := r2.takeWhile digitChar
  if ds.isEmpty then none else some (digitsVal ds)

/-- Leftmost position at which an anchored matcher succeeds. -/
def scanFirst (p : List Char → Option α) : List Char → Option α
  | [] => p []
  | s@(_ :: tl) =>
    match p s with
    | some v => some v
    | none => scanFirst p tl

/-- The PR-summary intent regex of the GitHub agent, anchored. -/
def prSummaryAt (s : List Char) : Option Nat :=
  (altEat ["summarize", "summarise", "show", "explain", "tell me about"] s).bind fun r1 =>
  (icEat " " r1).bind fun r2 =>
  (altEat ["pull request", "pr"] r2).bind fun r3 =>
  (icEat " " r3).bind fun r4 =>
  hashDigits r4

/-- The PR-summary intent match over a query. -/
def prSummaryMatch (q : String) : Option Nat := scanFirst prSummaryAt q.toList

/-- The code-review intent regex of the GitHub agent, anchored. -/
def codeReviewAt (s : List Char) : Option Nat :=
  (altEat ["review", "analyze", "analyse"] s).bind fun r1 =>
  (icEat " " r1).bind fun r2 =>
  (altEat ["code", "changes", "pull request", "pr"] r2).bind fun r3 =>
  (icEat " " r3).bind fun r4 =>
  hashDigits r4

/-- The code-review intent match over a query. -/
def codeReviewMatch (q : String) : Option Nat := scanFirst codeReviewAt q.toList

/-! ## Response formatting helpers (JS template-literal rendering) -/

mutual

/-- JS template-literal rendering of a value. -/
def jsShow : JValue → String
  | .null => "null"
  | .bool true => "true"
  | .bool false => "false"
  | .num i => String.mk (intChars i)
  | .str s => s
  | .arr vs => jsShowItems vs
  | .obj _ => "[object Object]"

/-- JS Array.prototype.toString: elements joined by commas. -/
def jsShowItems : List JValue → String
  | [] => ""
  | [v] => jsShow v
  | v :: vs => jsShow v ++ "," ++ jsShowItems vs

end

/-- Rendering of a possibly-undefined value in a template literal. -/
def jsShowO : Option JValue → String
  | none => "undefined"
  | some v => jsShow v

/-- Chained property access through a possibly-undefined value. -/
def oGet (o : Option JValue) (k : String) : Option JValue :=
  o.bind (fun v => jsGet v k)

/-- Truthiness through possible undefinedness. -/
def truthyO : Option JValue → Bool
  | none => false
  | some v => jsTruthy v

/-- Elements of a value expected to be an array (non-arrays give the empty
list; the source would raise a caught TypeError there). -/
def jsItems : Option JValue → List JValue
  | some (.arr vs) => vs
  | _ => []

/-- Members of a value expected to be an object (Object.entries). -/
def jsFieldsO : Option JValue → List (String × JValue)
  | some (.obj ms) => ms
  | _ => []

/-- A string truncated at the first line break (message.split at newline,
first piece). -/
def firstLine (s : String) : String :=
  String.mk (s.toList.takeWhile (fun c => c ≠ '\n'))

/-! ## GitHub agent -/

/-- The GitHub agent's own state: the configured repository identity and the
tool registry. -/
structure GitHubAgentModel where
  repoOwner : String
  repoName : String
  tools : List (String × ToolModel)

/-- String.prototype.includes: some substring occurrence. -/
def strIncludes (s pat : List Char) : Bool :=
  if pat.isPrefixOf s then true
  else
    match s with
    | [] => false
    | _ :: tl => strIncludes tl pat

/-- The fast path's registry probe: the first registered tool whose name is
"github" or contains it. -/
def findGithubTool (tools : List (String × ToolModel)) : Option ToolModel :=
  (tools.map (fun p => p.2)).find?
    (fun t => t.name == "github" || strIncludes t.name.toList "github".toList)

/-- The hand-templated report of the PR-summary fast path. -/
def formatPRSummary (n : Nat) (summary : JValue) : String :=
  let d := jsGet summary "data"
  let stats := oGet d "stats"
  let files := jsItems (oGet d "files")
  "# Pull Request #" ++ toString n ++ " Summary\n\n"
  ++ "**Title:** " ++ jsShowO (oGet d "title") ++ "\n"
  ++ "**Author:** " ++ jsShowO (oGet d "author") ++ "\n"
  ++ "**Status:** " ++ jsShowO (oGet d "state") ++ " "
  ++ (if truthyO (oGet d "merged") then "(merged)" else "") ++ "\n\n"
  ++ (if truthyO (oGet d "body") then "## Description\n" ++ jsShowO (oGet d "body") ++ "\n\n" else "")
  ++ "## Changes\n"
  ++ "- Files changed: " ++ jsShowO (oGet stats "files_changed") ++ "\n"
  ++ "- Additions: " ++ jsShowO (oGet stats "total_additions") ++ " line(s)\n"
  ++ "- Deletions: " ++ jsShowO (oGet stats "total_deletions") ++ " line(s)\n"
  ++ "- Total changes: " ++ jsShowO (oGet stats "total_changes") ++ " line(s)\n"
  ++ "- Commits: " ++ jsShowO (oGet stats "commit_count") ++ "\n\n"
  ++ "## Files Changed\n"
  ++ String.join ((files.take 10).map (fun f =>
      "- " ++ jsShowO (jsGet f "filename") ++ " (+" ++ jsShowO (jsGet f "additions")
      ++ ", -" ++ jsShowO (jsGet f "deletions") ++ ")\n"))
  ++ (if 10 < files.length then "- ... and " ++ toString (files.length - 10) ++ " more files\n" else "")

/-- One category block of the code-review report (added/modified files). -/
def reviewCategoryBlock (title : String) (files : List JValue) : String :=
  if 0 < files.length then
    "\n### " ++ title ++ "\n"
    ++ String.join ((files.take 5).map (fun f => "- " ++ jsShowO (jsGet f "filename") ++ "\n"))
    ++ (if 5 < files.length then "- ... and " ++ toString (files.length - 5) ++ " more\n" else "")
  else ""

/-- The hand-templated report of the code-review fast path. -/
def formatCodeReview (n : Nat) (review : JValue) : String :=
  let d := jsGet review "data"
  let pr := oGet d "pull_request"
  let stats := oGet d "stats"
  let cat := oGet d "categorized_files"
  let added := jsItems (oGet cat "added")
  let modified := jsItems (oGet cat "modified")
  let removed := jsItems (oGet cat "removed")
  "# Code Review: PR #" ++ toString n ++ "\n\n"
  ++ "**Title:** " ++ jsShowO (oGet pr "title") ++ "\n"
  ++ "**Author:** " ++ jsShowO (oGet pr "author") ++ "\n"
  ++ "**Branch:** " ++ jsShowO (oGet pr "head_ref") ++ " â†’ " ++ jsShowO (oGet pr "base_ref") ++ "\n\n"
  ++ "## Overview\n"
  ++ "- " ++ jsShowO (oGet stats "total_files") ++ " files changed\n"
  ++ "- " ++ jsShowO (oGet stats "total_additions") ++ " line additions\n"
  ++ "- " ++ jsShowO (oGet stats "total_deletions") ++ " line deletions\n"
  ++ "- " ++ jsShowO (oGet stats "commit_count") ++ " commits\n\n"
  ++ "## Files by Type\n"
  ++ String.join ((jsFieldsO (oGet d "changes_by_type")).map (fun p =>
      "- " ++ p.1 ++ ": " ++ jsShowO (jsGet p.2 "count") ++ " file(s)\n"))
  ++ "\n## Changes By Category\n"
  ++ "- Added: " ++ toString added.length ++ " file(s)\n"
  ++ "- Modified: " ++ toString modified.length ++ " file(s)\n"
  ++ "- Removed: " ++ toString removed.length ++ " file(s)\n"
  ++ reviewCategoryBlock "Added Files" added
  ++ reviewCategoryBlock "Modified Files" modified
  ++ "\n## Recent Commits\n"
  ++ String.join (((jsItems (oGet d "commits")).take 5).map (fun c =>
      "- " ++ jsShowO (jsGet c "sha") ++ ": " ++ firstLine (jsShowO (jsGet c "message")) ++ "\n"))

/-- The registry-missing fast-path response. -/
def ghNoToolResponse : String :=
  "I can\x27t access GitHub right now. Please make sure the GitHub tool is registered."

/-- The degraded PR-summary fast-path response on a failed tool call. -/
def ghSummaryDegraded (n : Nat) (msg : String) : String :=
  "I encountered an error trying to summarize PR #" ++ toString n ++ ": " ++ msg

/-- The degraded code-review fast-path response on a failed tool call. -/
def ghReviewDegraded (n : Nat) (msg : String) : String :=
  "I encountered an error trying to review PR #" ++ toString n ++ ": " ++ msg

/-- GitHubAgent.processGitHubPatterns: try the PR-summary intent, then the
code-review intent; on a match call the GitHub tool directly and render a
structured report, catching tool failures into a degraded response. -/
def processGitHubPatterns (a : GitHubAgentModel) (q : String) : Option Outcome :=
  match prSummaryMatch q with
  | some n =>
    some
      (match findGithubTool a.tools with
       | none => ⟨ghNoToolResponse, []⟩
       | some t =>
         match t.exec "summarizePR"
             (.obj [("owner", .str a.repoOwner), ("repo", .str a.repoName), ("number", .num (n : Int))]) with
         | .ok summary => ⟨formatPRSummary n summary, [("summary", summary)]⟩
         | .error msg => ⟨ghSummaryDegraded n msg, []⟩)
  | none =>
    match codeReviewMatch q with
    | some n =>
      some
        (match findGithubTool a.tools with
         | none => ⟨ghNoToolResponse, []⟩
         | some t =>
           match t.exec "reviewCode"
               (.obj [("owner", .str a.repoOwner), ("repo", .str a.repoName), ("number", .num (n : Int))]) with
           | .ok review => ⟨formatCodeReview n review, [("review", review)]⟩
           | .error msg => ⟨ghReviewDegraded n msg, []⟩)
    | none => none

namespace GitHubAgent

/-- GitHubAgent.processQuery: the fast path first, then the generic protocol
on the model completion. -/
def processQuery (a : GitHubAgentModel) (q : String) (toolParams : List (String × JValue))
    (completion : Except String String) : Except String Outcome :=
  match processGitHubPatterns a q with
  | some r => .ok r
  | none => BaseAgent.processQuery a.tools toolParams completion

end GitHubAgent

/-! ## Slack agent -/

/-- The Slack WebClient surface the fast path touches. -/
structure SlackClientModel where
  postMessage : String → String → Except String JValue
  convInfo : String → Except String JValue
  convHistory : String → Nat → Except String JValue
  convCreate : String → Bool → Except String JValue

/-- The ambient Date/locale rendering environment (toLocaleString and
toLocaleTimeString applied to the raw timestamp field). -/
structure DateEnv where
  fmtDateTime : Option JValue → String
  fmtTime : Option JValue → String

/-- The Slack agent's own state. -/
structure SlackAgentModel where
  client : Option SlackClientModel
  defaultChannel : String
  tools : List (String × ToolModel)

/-- The send-message intent regex of the Slack agent, anchored; captures the
channel word and the rest-of-line message with original casing. -/
def sendMessageAt (s : List Char) : Option (String × String) :=
  (icEat "send " s).bind fun r1 =>
  optEat "a "
    (fun r2 =>
      (icEat "message to " r2).bind fun r3 =>
      optEat "channel "
        (fun r4 =>
          let r5 := match r4 with | '#' :: t => t | _ => r4
          let wrun := r5.takeWhile isWordChar
          if wrun.isEmpty then none
          else
            (icEat " saying " (r5.drop wrun.length)).bind fun r6 =>
            let msg := r6.takeWhile isDotChar
            if msg.isEmpty then none else some (String.mk wrun, String.mk msg))
        r3)
    r1

/-- The send-message intent match over a query. -/
def sendMessageMatch (q : String) : Option (String × String) := scanFirst sendMessageAt q.toList

/-- The channel-info intent regex of the Slack agent, anchored. -/
def channelInfoAt (s : List Char) : Option String :=
  (altEat ["get", "show", "tell me about"] s).bind fun r1 =>
  (icEat " " r1).bind fun r2 =>
  (altEat ["channel", "conversation"] r2).bind fun r3 =>
  (icEat " " r3).bind fun r4 =>
  let r5 := match r4 with | '#' :: t => t | _ => r4
  let wrun := r5.takeWhile isWordChar
  if wrun.isEmpty then none else some (String.mk wrun)

/-- The channel-info intent match over a query. -/
def channelInfoMatch (q : String) : Option String := scanFirst channelInfoAt q.toList

/-- The create-channel intent regex of the Slack agent, anchored. -/
def createChannelAt (s : List Char) : Option String :=
  (icEat "create " s).bind fun r1 =>
  optEat "a "
    (fun r2 =>
      optEat "new "
        (fun r3 =>
          (icEat "channel " r3).bind fun r4 =>
          optEat "called "
            (fun r5 =>
              let r6 := match r5 with | '#' :: t => t | _ => r5
              let wrun := r6.takeWhile isWordChar
              if wrun.isEmpty then none else some (String.mk wrun))
            r4)
        r2)
    r1

/-- The create-channel intent match over a query. -/
def createChannelMatch (q : String) : Option String := scanFirst createChannelAt q.toList

namespace SlackAgent

/-- SlackAgent.sendMessage: requires the client, defaults the channel when
the given one is falsy, forwards postMessage failures. -/
def sendMessage (a : SlackAgentModel) (channel text : String) : Except String JValue :=
  match a.client with
  | none => .error "Slack client not initialized"
  | some c => c.postMessage (if channel != "" then channel else a.defaultChannel) text

/-- The Slack channel-name normalisation: lowercase, every character outside
[a-z0-9_-] becomes a dash, truncated to 79 characters. -/
def formatChannelName (name : String) : String :=
  String.mk
    (((lowerStr name).toList.map
        (fun c => if ('a' ≤ c && c ≤ 'z') || digitChar c || c == '_' || c == '-' then c else '-')).take 79)

/-- SlackAgent.createChannel: requires the client, normalises the name. -/
def createChannel (a : SlackAgentModel) (name : String) : Except String JValue :=
  match a.client with
  | none => .error "Slack client not initialized"
  | some c => c.convCreate (formatChannelName name) false

end SlackAgent

/-- The channel report of the Slack channel-info fast path. -/
def formatChannelInfo (env : DateEnv) (channelInfo history : JValue) : String :=
  let ch := jsGet channelInfo "channel"
  let msgs := jsGet history "messages"
  "Channel #" ++ jsShowO (oGet ch "name") ++ ":\n"
  ++ "Members: " ++ jsShowO (oGet ch "num_members") ++ "\n"
  ++ "Created: " ++ env.fmtDateTime (oGet ch "created") ++ "\n"
  ++ "Private: " ++ (if truthyO (oGet ch "is_private") then "Yes" else "No") ++ "\n\n"
  ++ (if truthyO msgs && 0 < (jsItems msgs).length then
        "Recent messages:\n"
        ++ String.join ((jsItems msgs).map (fun m =>
            let text := jsShowO (jsGet m "text")
            "[" ++ env.fmtTime (jsGet m "ts") ++ "] " ++ text.take 100
            ++ (if 100 < text.length then "..." else "") ++ "\n"))
      else "No recent messages found.\n")

/-- SlackAgent.processSlackQuery: the three intent patterns in order. The
send-message tool call is guarded only by the outer catch, which returns null
(fall back to the model); the other two intents catch their tool failures
into degraded responses. -/
def processSlackQuery (a : SlackAgentModel) (env : DateEnv) (q : String) : Option Outcome :=
  match sendMessageMatch q with
  | some (channel, message) =>
    match a.client with
    | some _ =>
      match SlackAgent.sendMessage a channel message with
      | .ok result =>
        some ⟨"Message sent to #" ++ channel ++ ": \"" ++ message ++ "\"",
              [("slack_sendMessage", result)]⟩
      | .error _ => none
    | none => some ⟨"Cannot send message: Slack client not initialized", []⟩
  | none =>
    match channelInfoMatch q with
    | some channel =>
      match a.client with
      | some c =>
        some
          (match c.convInfo channel with
           | .error msg =>
             ⟨"Couldn\x27t get information for channel #" ++ channel ++ ": " ++ msg,
              [("error", .str msg)]⟩
           | .ok channelInfo =>
             match c.convHistory channel 5 with
             | .error msg =>
               ⟨"Couldn\x27t get information for channel #" ++ channel ++ ": " ++ msg,
                [("error", .str msg)]⟩
             | .ok history =>
               ⟨formatChannelInfo env channelInfo history,
                [("channelInfo", (jsGet channelInfo "channel").getD .null),
                 ("history", (jsGet history "messages").getD .null)]⟩)
      | none => some ⟨"Cannot get channel info: Slack client not initialized", []⟩
    | none =>
      match createChannelMatch q with
      | some nameRaw =>
        let channelName := lowerStr nameRaw
        match a.client with
        | some _ =>
          some
            (match SlackAgent.createChannel a channelName with
             | .ok result =>
               ⟨"Channel #" ++ jsShowO (oGet (jsGet result "channel") "name")
                ++ " has been created successfully!",
                [("slack_createChannel", result)]⟩
             | .error msg =>
               ⟨"Failed to create channel #" ++ channelName ++ ": " ++ msg,
                [("error", .str msg)]⟩)
        | none => some ⟨"Cannot create channel: Slack client not initialized", []⟩
      | none => none

namespace SlackAgent

/-- SlackAgent.processQuery: direct Slack patterns first, then the generic
protocol on the model completion. -/
def processQuery (a : SlackAgentModel) (env : DateEnv) (q : String)
    (toolParams : List (String × JValue)) (completion : Except String String) :
    Except String Outcome :=
  match processSlackQuery a env q with
  | some r => .ok r
  | none => BaseAgent.processQuery a.tools toolParams completion

end SlackAgent

/-! ## Shared fixtures for concrete witnesses and counterexamples -/

/-- A GitHub tool fixture whose executor records the action and parameters. -/
def sampleGitHubTool : ToolModel where
  name := "github"
  configName := "github"
  ctorName := "GitHubTool"
  repoOwner := some "octo"
  repoName := some "repo"
  actions := some [⟨"getPR", some [("number", ⟨true⟩)]⟩]
  exec := fun a p => .ok (.obj [("action", .str a), ("got", p)])

/-- The standard one-tool registry fixture. -/
def sampleRegistry : List (String × ToolModel) := [("github", sampleGitHubTool)]

/-- A variant fixture whose getPR schema requires `owner`. -/
def ownerRequiredTool : ToolModel :=
  { sampleGitHubTool with actions := some [⟨"getPR", some [("owner", ⟨true⟩)]⟩] }

/-- A fixture without an action catalog whose executor always rejects. -/
def failingOpaqueTool : ToolModel :=
  { sampleGitHubTool with actions := none, exec := fun _ _ => .error "boom" }

/-- The dispatch taken once the tool has been retrieved from the registry:
validate against the tag's own parameters, then either the missing-parameter
marker, or enhancement followed by execution and either the success marker
plus a recorded result or the error marker with the rejection's message. -/
def resolvedDispatch (toolParams : List (String × JValue)) (st : Outcome) (tg : TagMatch)
    (tool : ToolModel) (params : JValue) : Outcome :=
  let toolName := String.mk tg.tool
  let actionName := String.mk tg.action
  let missing := checkRequiredParameters (getActionInfo tool actionName) params
  if missing.isEmpty then
    match tool.exec actionName (.obj (enhanceToolParameters tool actionName params toolParams)) with
    | .error msg =>
      { st with response := replaceOnceS st.response tg.full (errorMarker toolName actionName msg) }
    | .ok result =>
      { response := replaceOnceS st.response tg.full (successMarker (toolName ++ "_" ++ actionName)),
        toolResults := setProp st.toolResults (toolName ++ "_" ++ actionName) result }
  else
    { st with response := replaceOnceS st.response tg.full (errorMarker toolName actionName (missingParamsMsg actionName missing)) }

/-- A GitHub agent fixture whose only tool rejects every execution. -/
def failingGithubAgent : GitHubAgentModel :=
  ⟨"octo", "repo", [("github", failingOpaqueTool)]⟩

/-- A Slack client fixture rejecting every network call. -/
def failingSlackClient : SlackClientModel :=
  ⟨fun _ _ => .error "boom", fun _ => .error "boom", fun _ _ => .error "boom",
   fun _ _ => .error "boom"⟩

/-- A Slack agent fixture over the failing client. -/
def failingSlackAgent : SlackAgentModel := ⟨some failingSlackClient, "general", []⟩

/-- A trivial date-rendering environment. -/
def plainDateEnv : DateEnv := ⟨fun _ => "", fun _ => ""⟩

/-- The execution outcome a single tag contributes to the result map: the
composite key and the execution result when dispatch reaches a successful
execution, nothing otherwise. A tag's dispatch decision depends only on the
registry, the ambient parameters and the tag itself, never on the evolving
response text or result map. -/
def tagOutcome (tools : List (String × ToolModel)) (toolParams : List (String × JValue))
    (tg : TagMatch) : Option (String × JValue) :=
  match jsonParse tg.params with
  | none => none
  | some params =>
    if (tools.map (fun p => p.2)).any
        (fun t => lowerStr t.configName == lowerStr (String.mk tg.tool)) then
      match mapGet tools (String.mk tg.tool) with
      | none => none
      | some tool =>
        if (checkRequiredParameters (getActionInfo tool (String.mk tg.action)) params).isEmpty then
          match tool.exec (String.mk tg.action)
              (.obj (enhanceToolParameters tool (String.mk tg.action) params toolParams)) with
          | .ok result => some (String.mk tg.tool ++ "_" ++ String.mk tg.action, result)
          | .error _ => none
        else none
    else none

/-- The ordered list of successful executions of a tag list. -/
def successList (tools : List (String × ToolModel)) (toolParams : List (String × JValue))
    (tags : List TagMatch) : List (String × JValue) :=
  tags.filterMap (tagOutcome tools toolParams)

/-- Key list of a fold of assignments: first-occurrence insertion order. -/
def keyInsertOrder (l : List (String × JValue)) (ks : List String) : List String :=
  l.foldl (fun ks kv => if ks.contains kv.1 then ks else ks ++ [kv.1]) ks

/-- The last value assigned to a key by a list of assignments, if any. -/
def lastValueFor (k : String) (l : List (String × JValue)) (acc : Option JValue) : Option JValue :=
  l.foldl (fun acc kv => if kv.1 = k then some kv.2 else acc) acc

/-! ## The round trip: serialization into tag syntax and back -/

/-- Modelled from the spec: the wire grammar of an embedded invocation,
"[TOOL_ACTION:" tool ":" action ":" json object "]" (the serialization
direction of the round-trip property; the source itself never serializes). -/
def serializeTag (tool action : String) (p : JValue) : String :=
  "[TOOL_ACTION:" ++ tool ++ ":" ++ action ++ ":" ++ String.mk (serializeJ p) ++ "]"

/-- The extractor composed with parameter parsing: the (tool, action, params)
triple of every scanned tag. -/
def extractInvocations (text : String) : List (String × String × Option JValue) :=
  (extractTags text.toList).map
    (fun tg => (String.mk tg.tool, String.mk tg.action, jsonParse tg.params))

/-- A remainder that cannot extend a numeral: empty or not starting with a
digit. -/
def numStop : List Char → Bool
  | [] => true
  | c :: _ => !digitChar c

/-- On a successful anchored match the remainder is strictly shorter. -/
theorem matchTagAt_rem_lt {s : List Char} {tg : TagMatch} {rem : List Char}
    (h : matchTagAt s = some (tg, rem)) : rem.length < s.length := by
  unfold matchTagAt at h
  split at h
  case isFalse => exact absurd h (by simp)
  case isTrue hpre =>
    have hslen : tagMarker.length ≤ s.length :=
      List.IsPrefix.length_le (List.isPrefixOf_iff_prefix.mp hpre)
    simp only [tagMarker, List.length_cons, List.length_nil] at hslen
    simp only at h
    split at h
    case h_2 => exact absurd h (by simp)
    case h_1 r2 heq2 =>
      split at h
      case isTrue => exact absurd h (by simp)
      case isFalse =>
        split at h
        case h_2 => exact absurd h (by simp)
        case h_1 r3 heq3 =>
          split at h
          case isTrue => exact absurd h (by simp)
          case isFalse =>
            split at h
            case h_2 => exact absurd h (by simp)
            case h_1 r4 heq4 =>
              split at h
              case isTrue => exact absurd h (by simp)
              case isFalse =>
                have h2 : r2.length < s.length - tagMarker.length := by
                  have := congrArg List.length heq2
                  simp [List.length_drop] at this
                  simp only [tagMarker, List.length_cons, List.length_nil] at this ⊢
                  omega
                have h3 : r3.length < r2.length := by
                  have := congrArg List.length heq3
                  simp [List.length_drop] at this
                  omega
                have h4 : r4.length < r3.length := by
                  have := congrArg List.length heq4
                  simp [List.length_drop] at this
                  omega
                have hrem : rem = r4 := by
                  simp only [Option.some.injEq, Prod.mk.injEq] at h
                  exact h.2.symm
                subst hrem
                simp only [tagMarker, List.length_cons, List.length_nil] at h2
                omega

/-- The scanner is fuel-insensitive above the input length, so `extractTags`
computes the full fixpoint of the scan. -/
theorem extractTagsAux_fuel_eq :
    ∀ (fuel fuel2 : Nat) (s : List Char), s.length < fuel → s.length < fuel2 →
      extractTagsAux fuel s = extractTagsAux fuel2 s := by
  intro fuel
  induction fuel with
  | zero => intro fuel2 s h1 _; omega
  | succ f ih =>
    intro fuel2 s h1 h2
    match fuel2, h2 with
    | f2 + 1, h2 =>
      cases s with
      | nil => rfl
      | cons c tl =>
        simp only [extractTagsAux]
        split
        case h_1 tg rem hm =>
          have hlt := matchTagAt_rem_lt hm
          simp only [List.length_cons] at h1 h2 hlt
          rw [ih f2 rem (by omega) (by omega)]
        case h_2 =>
          simp only [List.length_cons] at h1 h2
          rw [ih f2 tl (by omega) (by omega)]

/-! ## Small lemmas about assignment, lookup and the validator -/

/-- Lookup at the head of a binding list. -/
theorem propGet_cons (k0 : String) (v0 : JValue) (t : List (String × JValue)) (k2 : String) :
    propGet ((k0, v0) :: t) k2 = if k0 = k2 then some v0 else propGet t k2 := by
  simp only [propGet, List.find?]
  by_cases h : k0 = k2
  · simp [h]
  · have hb : (k0 == k2) = false := by simp [h]
    simp [h, hb]

/-- Lookup after assignment: the assigned key reads the new value, every
other key is unaffected. -/
theorem propGet_setProp (m : List (String × JValue)) (k k2 : String) (v : JValue) :
    propGet (setProp m k v) k2 = if k2 = k then some v else propGet m k2 := by
  induction m with
  | nil =>
    simp only [setProp]
    rw [propGet_cons]
    by_cases h : k2 = k
    · simp [h]
    · have h2 : ¬ k = k2 := fun hc => h hc.symm
      simp [h, h2, propGet, List.find?]
  | cons p t ih =>
    obtain ⟨k0, v0⟩ := p
    by_cases h0 : k0 = k
    · subst h0
      simp only [setProp, beq_self_eq_true, if_pos]
      rw [propGet_cons, propGet_cons]
      by_cases h2 : k0 = k2
      · simp [h2]
      · have h3 : ¬ k2 = k0 := fun hc => h2 hc.symm
        simp [h2, h3]
    · have hne : (k0 == k) = false := by simp [h0]
      simp only [setProp, hne, Bool.false_eq_true, if_false]
      rw [propGet_cons, propGet_cons]
      by_cases h2 : k0 = k2
      · have h3 : ¬ k2 = k := fun hc => h0 (h2.trans hc)
        rw [if_pos h2, if_pos h2, if_neg h3]
      · rw [if_neg h2, if_neg h2, ih]

/-- Lookup through the ambient layer: a key present before the layer keeps
its value, an absent key receives the caller's first binding for it. -/
theorem ambientFill_propGet (tp : List (String × JValue)) :
    ∀ (e1 : List (String × JValue)) (k : String),
      propGet (ambientFill tp e1) k =
        match propGet e1 k with
        | some v => some v
        | none => propGet tp k := by
  induction tp with
  | nil =>
    intro e1 k
    simp only [ambientFill, List.foldl_nil]
    cases propGet e1 k <;> simp [propGet, List.find?]
  | cons p t ih =>
    intro e1 k
    obtain ⟨k0, v0⟩ := p
    have hstep : ambientFill ((k0, v0) :: t) e1 =
        ambientFill t (if (propGet e1 k0).isNone then setProp e1 k0 v0 else e1) := rfl
    rw [hstep]
    by_cases h0 : propGet e1 k0 = none
    · rw [if_pos (by simp [h0])]
      rw [ih (setProp e1 k0 v0) k, propGet_setProp]
      by_cases hk : k = k0
      · subst hk
        simp [h0, propGet_cons]
      · rw [if_neg hk, propGet_cons]
        have hk0 : ¬ k0 = k := fun hc => hk hc.symm
        cases hv : propGet e1 k <;> simp [hk0]
    · rw [if_neg (by simp [Option.isNone_iff_eq_none, h0])]
      rw [ih e1 k]
      by_cases hk : k = k0
      · subst hk
        obtain ⟨v, hv⟩ := Option.ne_none_iff_exists'.mp h0
        simp [hv]
      · rw [propGet_cons]
        have hk0 : ¬ k0 = k := fun hc => hk hc.symm
        cases hv : propGet e1 k <;> simp [hk0]

/-- The validator's accumulator unrolled: it pushes, in schema order, exactly
the required names whose value is absent or null. -/
theorem checkRequired_foldl (params : JValue) (plist : List (String × ParamInfo)) :
    ∀ acc : List String,
      plist.foldl
        (fun acc p => if p.2.required && isAbsentOrNull params p.1 then acc ++ [p.1] else acc)
        acc =
      acc ++ (plist.filter (fun p => p.2.required && isAbsentOrNull params p.1)).map Prod.fst := by
  induction plist with
  | nil => intro acc; simp
  | cons p t ih =>
    intro acc
    simp only [List.foldl_cons, List.filter_cons]
    by_cases h : (p.2.required && isAbsentOrNull params p.1) = true
    · rw [if_pos h, if_pos h, ih (acc ++ [p.1]), List.map_cons, List.append_assoc,
        List.singleton_append]
    · rw [if_neg h, if_neg h, ih acc]

/-- The absent-or-null presence test, spelled out. -/
theorem isAbsentOrNull_iff (params : JValue) (k : String) :
    isAbsentOrNull params k = true ↔
      (jsGet params k = none ∨ jsGet params k = some JValue.null) := by
  unfold isAbsentOrNull
  cases hv : jsGet params k with
  | none => simp
  | some v => cases v <;> simp

/-- C1: a tag whose parameter text fails to parse as a JSON value is not
executed: the result map is untouched, the tag's span is replaced in the
response by the inline invalid-parameter marker, and the scan then processes
the remaining extracted tags exactly as it otherwise would. -/
theorem claim_C1_malformed_tag_recovered
    (tools : List (String × ToolModel)) (toolParams : List (String × JValue))
    (st : Outcome) (tg : TagMatch) (rest : List TagMatch)
    (h : jsonParse tg.params = none) :
    processTags tools toolParams st (tg :: rest) =
      processTags tools toolParams
        ⟨replaceOnceS st.response tg.full
           (invalidParamsMarker (String.mk tg.tool) (String.mk tg.action)),
         st.toolResults⟩
        rest := by
  simp only [processTags, List.foldl_cons]
  congr 1
  simp only [processOneTag, h]

/-- Witness for C1 at the specification's own example: the truncated
parameter text fails to parse, and on a concrete two-tag completion the
malformed tag turns into the marker while the following well-formed tag still
executes and records its result. -/
theorem claim_C1_malformed_tag_recovered_witness :
    (jsonParse ("\x7b\"number\": 42".toList) = none) ∧
    (processTags sampleRegistry []
        ⟨"A [TOOL_ACTION:github:getPR:\x7b\"number\": 42] B [TOOL_ACTION:github:getPR:\x7b\"number\": 7\x7d] C", []⟩
        (extractTags
          "A [TOOL_ACTION:github:getPR:\x7b\"number\": 42] B [TOOL_ACTION:github:getPR:\x7b\"number\": 7\x7d] C".toList) =
      ⟨"A [Error: Invalid parameter format for github.getPR] B [github_getPR completed successfully] C",
       [("github_getPR", .obj [("action", .str "getPR"),
          ("got", .obj [("number", .num 7), ("owner", .str "octo"), ("repo", .str "repo")])])]⟩) := by
  constructor
  · rfl
  · have step := claim_C1_malformed_tag_recovered sampleRegistry []
      ⟨"A [TOOL_ACTION:github:getPR:\x7b\"number\": 42] B [TOOL_ACTION:github:getPR:\x7b\"number\": 7\x7d] C", []⟩
      ⟨"[TOOL_ACTION:github:getPR:\x7b\"number\": 42]".toList,
        "github".toList, "github".toList, "getPR".toList, "\x7b\"number\": 42".toList⟩
      [] (by rfl)
    rfl

/-- Unfolding of the per-tag processing once the parameters parse, the
case-insensitive existence check passes and the exact map-key retrieval
succeeds. -/
theorem processOneTag_found
    (tools : List (String × ToolModel)) (toolParams : List (String × JValue))
    (st : Outcome) (tg : TagMatch) (params : JValue) (tool : ToolModel)
    (hparse : jsonParse tg.params = some params)
    (hany : ((tools.map (fun p => p.2)).any
        (fun t => lowerStr t.configName == lowerStr (String.mk tg.tool))) = true)
    (hget : mapGet tools (String.mk tg.tool) = some tool) :
    processOneTag tools toolParams st tg = resolvedDispatch toolParams st tg tool params := by
  simp only [processOneTag, hparse, hany, if_pos, hget, resolvedDispatch]

/-- Once retrieval succeeds and validation reports missing parameters, the
tag yields the missing-parameter marker and nothing is executed or recorded. -/
theorem processOneTag_missing
    (tools : List (String × ToolModel)) (toolParams : List (String × JValue))
    (st : Outcome) (tg : TagMatch) (params : JValue) (tool : ToolModel)
    (hparse : jsonParse tg.params = some params)
    (hany : ((tools.map (fun p => p.2)).any
        (fun t => lowerStr t.configName == lowerStr (String.mk tg.tool))) = true)
    (hget : mapGet tools (String.mk tg.tool) = some tool)
    (hmiss : checkRequiredParameters (getActionInfo tool (String.mk tg.action)) params ≠ []) :
    processOneTag tools toolParams st tg =
      { st with response := replaceOnceS st.response tg.full (errorMarker (String.mk tg.tool) (String.mk tg.action) (missingParamsMsg (String.mk tg.action) (checkRequiredParameters (getActionInfo tool (String.mk tg.action)) params))) } := by
  rw [processOneTag_found tools toolParams st tg params tool hparse hany hget]
  simp only [resolvedDispatch]
  rw [if_neg (by simpa [List.isEmpty_iff] using hmiss)]

/-- C5: the validator reports, in schema order, exactly the required names
whose tag-supplied value is absent or null — empty string, zero and false
count as present — and a non-empty report blocks dispatch: the tag turns into
the missing-parameter marker naming every missing field and no result is
recorded, whatever the tool's executor would have returned. -/
theorem claim_C5_required_parameter_validation :
    (∀ (ai : ActionInfo) (plist : List (String × ParamInfo)) (params : JValue),
       ai.parameters = some plist →
       checkRequiredParameters (some ai) params =
         (plist.filter (fun p => p.2.required && isAbsentOrNull params p.1)).map Prod.fst) ∧
    (∀ (ai : ActionInfo) (plist : List (String × ParamInfo)) (params : JValue) (n : String),
       ai.parameters = some plist →
       (n ∈ checkRequiredParameters (some ai) params ↔
         ∃ pinfo, (n, pinfo) ∈ plist ∧ pinfo.required = true ∧
           (jsGet params n = none ∨ jsGet params n = some JValue.null))) ∧
    (∀ (params : JValue) (n : String) (v : JValue),
       jsGet params n = some v → v ≠ JValue.null → isAbsentOrNull params n = false) ∧
    (∀ tools toolParams st tg params tool,
       jsonParse tg.params = some params →
       ((tools.map (fun p => p.2)).any
          (fun t => lowerStr t.configName == lowerStr (String.mk tg.tool))) = true →
       mapGet tools (String.mk tg.tool) = some tool →
       checkRequiredParameters (getActionInfo tool (String.mk tg.action)) params ≠ [] →
       (processOneTag tools toolParams st tg).toolResults = st.toolResults ∧
       (processOneTag tools toolParams st tg).response =
         replaceOnceS st.response tg.full
           (errorMarker (String.mk tg.tool) (String.mk tg.action)
             (missingParamsMsg (String.mk tg.action)
               (checkRequiredParameters (getActionInfo tool (String.mk tg.action)) params)))) := by
  refine ⟨?_, ?_, ?_, ?_⟩
  · intro ai plist params hp
    simp only [checkRequiredParameters, hp]
    rw [checkRequired_foldl params plist []]
    rfl
  · intro ai plist params n hp
    simp only [checkRequiredParameters, hp]
    rw [checkRequired_foldl params plist []]
    simp only [List.nil_append, List.mem_map, List.mem_filter]
    constructor
    · rintro ⟨⟨pn, pinfo⟩, ⟨hmem, hcond⟩, hfst⟩
      simp only at hfst
      subst hfst
      simp only [Bool.and_eq_true] at hcond
      exact ⟨pinfo, hmem, hcond.1, (isAbsentOrNull_iff params pn).mp hcond.2⟩
    · rintro ⟨pinfo, hmem, hreq, habs⟩
      refine ⟨(n, pinfo), ⟨hmem, ?_⟩, rfl⟩
      simp only [Bool.and_eq_true]
      exact ⟨hreq, (isAbsentOrNull_iff params n).mpr habs⟩
  · intro params n v hv hnn
    unfold isAbsentOrNull
    rw [hv]
    cases v
    case null => exact absurd rfl hnn
    all_goals rfl
  · intro tools toolParams st tg params tool hparse hany hget hmiss
    rw [processOneTag_missing tools toolParams st tg params tool hparse hany hget hmiss]
    exact ⟨rfl, rfl⟩

/-- Witness for C5 at the specification's example: schema requiring `number`
against empty parameters reports exactly that name, and on a concrete tag the
dispatcher substitutes the missing-parameter marker and records nothing. -/
theorem claim_C5_required_parameter_validation_witness :
    (checkRequiredParameters (some ⟨"getPR", some [("number", ⟨true⟩)]⟩) (.obj []) = ["number"]) ∧
    ((processOneTag sampleRegistry [("unrelated", .num 1)] ⟨"A [TOOL_ACTION:github:getPR:\x7b\x7d] B", []⟩
        ⟨"[TOOL_ACTION:github:getPR:\x7b\x7d]".toList, "github".toList, "github".toList,
          "getPR".toList, "\x7b\x7d".toList⟩).toolResults = []) ∧
    ((processOneTag sampleRegistry [("unrelated", .num 1)] ⟨"A [TOOL_ACTION:github:getPR:\x7b\x7d] B", []⟩
        ⟨"[TOOL_ACTION:github:getPR:\x7b\x7d]".toList, "github".toList, "github".toList,
          "getPR".toList, "\x7b\x7d".toList⟩).response =
      "A [github getPR result: Error - Missing required parameters for getPR: number] B") := by
  refine ⟨?_, ?_, ?_⟩
  · rw [(claim_C5_required_parameter_validation.1 ⟨"getPR", some [("number", ⟨true⟩)]⟩
      [("number", ⟨true⟩)] (.obj []) rfl)]
    rfl
  · exact ((claim_C5_required_parameter_validation.2.2.2 sampleRegistry [("unrelated", .num 1)]
      ⟨"A [TOOL_ACTION:github:getPR:\x7b\x7d] B", []⟩
      ⟨"[TOOL_ACTION:github:getPR:\x7b\x7d]".toList, "github".toList, "github".toList,
        "getPR".toList, "\x7b\x7d".toList⟩
      (.obj []) sampleGitHubTool rfl rfl rfl (by decide)).1)
  · rfl

/-- C10: when the resolved tool exposes no action catalog, or the action name
is not listed in it, getActionInfo yields nothing, validation vacuously
reports no missing parameters, and execution is attempted with the enhanced
tag parameters whatever they contain; a rejection surfaces only as the tool's
own inline error marker. -/
theorem claim_C10_uncatalogued_actions_skip_validation :
    ∀ tools toolParams st tg params tool,
      jsonParse tg.params = some params →
      ((tools.map (fun p => p.2)).any
         (fun t => lowerStr t.configName == lowerStr (String.mk tg.tool))) = true →
      mapGet tools (String.mk tg.tool) = some tool →
      (tool.actions = none ∨
        ∃ acts, tool.actions = some acts ∧
          acts.find? (fun a => a.name == String.mk tg.action) = none) →
      checkRequiredParameters (getActionInfo tool (String.mk tg.action)) params = [] ∧
      processOneTag tools toolParams st tg =
        (match tool.exec (String.mk tg.action)
            (.obj (enhanceToolParameters tool (String.mk tg.action) params toolParams)) with
         | .ok result =>
           ⟨replaceOnceS st.response tg.full
              (successMarker (String.mk tg.tool ++ "_" ++ String.mk tg.action)),
            setProp st.toolResults (String.mk tg.tool ++ "_" ++ String.mk tg.action) result⟩
         | .error msg =>
           { st with response := replaceOnceS st.response tg.full (errorMarker (String.mk tg.tool) (String.mk tg.action) msg) }) := by
  intro tools toolParams st tg params tool hparse hany hget hcat
  have hinfo : getActionInfo tool (String.mk tg.action) = none := by
    rcases hcat with hnone | ⟨acts, hacts, hfind⟩
    · simp [getActionInfo, hnone]
    · simp [getActionInfo, hacts, hfind]
  constructor
  · simp [checkRequiredParameters, hinfo]
  · rw [processOneTag_found tools toolParams st tg params tool hparse hany hget]
    simp only [resolvedDispatch, hinfo]
    rw [if_pos (by simp [checkRequiredParameters])]
    cases tool.exec (String.mk tg.action)
        (.obj (enhanceToolParameters tool (String.mk tg.action) params toolParams)) <;> rfl

/-- Witness for C10: a tool without a catalog, rejecting every call, turns a
concrete tag into its own error marker with no validation interference. -/
theorem claim_C10_uncatalogued_actions_skip_validation_witness :
    (checkRequiredParameters (getActionInfo failingOpaqueTool "whatever") (.obj []) = []) ∧
    (processOneTag [("github", failingOpaqueTool)] [] ⟨"A [TOOL_ACTION:github:whatever:\x7b\x7d] B", []⟩
        ⟨"[TOOL_ACTION:github:whatever:\x7b\x7d]".toList, "github".toList, "github".toList,
          "whatever".toList, "\x7b\x7d".toList⟩ =
      ⟨"A [github whatever result: Error - boom] B", []⟩) := by
  have inst := claim_C10_uncatalogued_actions_skip_validation
    [("github", failingOpaqueTool)] [] ⟨"A [TOOL_ACTION:github:whatever:\x7b\x7d] B", []⟩
    ⟨"[TOOL_ACTION:github:whatever:\x7b\x7d]".toList, "github".toList, "github".toList,
      "whatever".toList, "\x7b\x7d".toList⟩
    (.obj []) failingOpaqueTool rfl rfl rfl (Or.inl rfl)
  exact ⟨inst.1, by rw [inst.2]; rfl⟩

/-- C3: BaseAgent.processQuery returns a completed outcome exactly when the
model completion is obtained — the per-tag processing of the completion text
is total, so its failures never propagate — and raises precisely the
completion failure otherwise. -/
theorem claim_C3_propagation_policy
    (tools : List (String × ToolModel)) (toolParams : List (String × JValue)) :
    (∀ text, BaseAgent.processQuery tools toolParams (.ok text) =
       .ok (processToolActions tools toolParams text)) ∧
    (∀ e, BaseAgent.processQuery tools toolParams (.error e) = .error e) :=
  ⟨fun _ => rfl, fun _ => rfl⟩

/-- Counterexample to C9 as stated: the Slack send-message intent. The query
matches the fast-path pattern and the directly-invoked tool call fails, yet
the agent does not return a degraded response: the failure reaches the outer
catch, the fast path returns null, and the query falls through to the
model-completion path — the result is the processed model completion (and a
model failure even becomes a query-level error). -/
theorem claim_C9_counterexample_slack_send_falls_through :
    (sendMessageMatch "send a message to #general saying hi" = some ("general", "hi")) ∧
    (SlackAgent.sendMessage failingSlackAgent "general" "hi" = .error "boom") ∧
    (processSlackQuery failingSlackAgent plainDateEnv
       "send a message to #general saying hi" = none) ∧
    (SlackAgent.processQuery failingSlackAgent plainDateEnv
       "send a message to #general saying hi" [] (.ok "MODEL RESPONSE") =
       .ok ⟨"MODEL RESPONSE", []⟩) ∧
    (SlackAgent.processQuery failingSlackAgent plainDateEnv
       "send a message to #general saying hi" [] (.error "model down") =
       .error "model down") :=
  ⟨rfl, rfl, rfl, rfl, rfl⟩

/-- C9 amended: a fast-path tool-call failure yields a degraded textual
response carrying the failure message, without falling through to the
model-completion path, for the GitHub PR-summary and code-review intents and
for the Slack channel-info and create-channel intents; the one exception is
the Slack send-message intent, whose tool-call failure makes the fast path
return null so that the query is handled by the model-completion path. -/
theorem claim_C9_amended_fast_path_failures :
    (∀ (a : GitHubAgentModel) (q : String) (tp : List (String × JValue))
        (completion : Except String String) (n : Nat) (t : ToolModel) (msg : String),
       prSummaryMatch q = some n →
       findGithubTool a.tools = some t →
       t.exec "summarizePR" (.obj [("owner", .str a.repoOwner), ("repo", .str a.repoName),
         ("number", .num (n : Int))]) = .error msg →
       GitHubAgent.processQuery a q tp completion = .ok ⟨ghSummaryDegraded n msg, []⟩) ∧
    (∀ (a : GitHubAgentModel) (q : String) (tp : List (String × JValue))
        (completion : Except String String) (n : Nat) (t : ToolModel) (msg : String),
       prSummaryMatch q = none →
       codeReviewMatch q = some n →
       findGithubTool a.tools = some t →
       t.exec "reviewCode" (.obj [("owner", .str a.repoOwner), ("repo", .str a.repoName),
         ("number", .num (n : Int))]) = .error msg →
       GitHubAgent.processQuery a q tp completion = .ok ⟨ghReviewDegraded n msg, []⟩) ∧
    (∀ (a : SlackAgentModel) (env : DateEnv) (q : String) (tp : List (String × JValue))
        (completion : Except String String) (ch : String) (c : SlackClientModel) (msg : String),
       sendMessageMatch q = none →
       channelInfoMatch q = some ch →
       a.client = some c →
       c.convInfo ch = .error msg →
       SlackAgent.processQuery a env q tp completion =
         .ok ⟨"Couldn\x27t get information for channel #" ++ ch ++ ": " ++ msg,
              [("error", .str msg)]⟩) ∧
    (∀ (a : SlackAgentModel) (env : DateEnv) (q : String) (tp : List (String × JValue))
        (completion : Except String String) (nm : String) (c : SlackClientModel) (msg : String),
       sendMessageMatch q = none →
       channelInfoMatch q = none →
       createChannelMatch q = some nm →
       a.client = some c →
       c.convCreate (SlackAgent.formatChannelName (lowerStr nm)) false = .error msg →
       SlackAgent.processQuery a env q tp completion =
         .ok ⟨"Failed to create channel #" ++ lowerStr nm ++ ": " ++ msg,
              [("error", .str msg)]⟩) ∧
    (∀ (a : SlackAgentModel) (env : DateEnv) (q : String) (tp : List (String × JValue))
        (completion : Except String String) (ch m msg : String) (c : SlackClientModel),
       sendMessageMatch q = some (ch, m) →
       a.client = some c →
       SlackAgent.sendMessage a ch m = .error msg →
       SlackAgent.processQuery a env q tp completion =
         BaseAgent.processQuery a.tools tp completion) := by
  refine ⟨?_, ?_, ?_, ?_, ?_⟩
  · intro a q tp completion n t msg hmatch hfind hexec
    unfold GitHubAgent.processQuery processGitHubPatterns
    simp only [hmatch, hfind, hexec]
  · intro a q tp completion n t msg hno hmatch hfind hexec
    unfold GitHubAgent.processQuery processGitHubPatterns
    simp only [hno, hmatch, hfind, hexec]
  · intro a env q tp completion ch c msg hno hmatch hcl hinfo
    unfold SlackAgent.processQuery processSlackQuery
    simp only [hno, hmatch, hcl, hinfo]
  · intro a env q tp completion nm c msg hno1 hno2 hmatch hcl hcreate
    unfold SlackAgent.processQuery processSlackQuery
    simp only [hno1, hno2, hmatch, hcl, SlackAgent.createChannel, hcreate]
  · intro a env q tp completion ch m msg c hmatch hcl hsend
    unfold SlackAgent.processQuery processSlackQuery
    simp only [hmatch, hcl, hsend]

/-- Witness for the amended C9: the spec's example query against a failing
GitHub tool produces the degraded summary response whatever the model
completion would have said, and the Slack send-message failure hands the
concrete query to the model path. -/
theorem claim_C9_amended_fast_path_failures_witness :
    (GitHubAgent.processQuery failingGithubAgent "summarize pull request #42" []
       (.ok "UNUSED MODEL TEXT") =
       .ok ⟨"I encountered an error trying to summarize PR #42: boom", []⟩) ∧
    (SlackAgent.processQuery failingSlackAgent plainDateEnv
       "send a message to #general saying hi" [] (.ok "MODEL RESPONSE") =
       BaseAgent.processQuery failingSlackAgent.tools [] (.ok "MODEL RESPONSE")) := by
  constructor
  · have inst := claim_C9_amended_fast_path_failures.1 failingGithubAgent
      "summarize pull request #42" [] (.ok "UNUSED MODEL TEXT") 42 failingOpaqueTool "boom"
      rfl rfl rfl
    rw [inst]
    rfl
  · exact claim_C9_amended_fast_path_failures.2.2.2.2 failingSlackAgent plainDateEnv
      "send a message to #general saying hi" [] (.ok "MODEL RESPONSE") "general" "hi" "boom"
      failingSlackClient rfl rfl rfl

/-- The per-tag update of the result map is exactly an optional assignment of
the tag's outcome. -/
theorem processOneTag_toolResults (tools : List (String × ToolModel))
    (toolParams : List (String × JValue)) (st : Outcome) (tg : TagMatch) :
    (processOneTag tools toolParams st tg).toolResults =
      (match tagOutcome tools toolParams tg with
       | some kv => setProp st.toolResults kv.1 kv.2
       | none => st.toolResults) := by
  unfold processOneTag tagOutcome
  cases hp : jsonParse tg.params with
  | none => rfl
  | some params =>
    simp only
    by_cases hany : ((tools.map (fun p => p.2)).any
        (fun t => lowerStr t.configName == lowerStr (String.mk tg.tool))) = true
    · rw [if_pos hany, if_pos hany]
      cases hget : mapGet tools (String.mk tg.tool) with
      | none => rfl
      | some tool =>
        simp only
        by_cases hm : (checkRequiredParameters
            (getActionInfo tool (String.mk tg.action)) params).isEmpty = true
        · rw [if_pos hm, if_pos hm]
          cases tool.exec (String.mk tg.action)
              (.obj (enhanceToolParameters tool (String.mk tg.action) params toolParams)) <;> rfl
        · rw [if_neg hm, if_neg hm]
    · rw [if_neg hany, if_neg hany]

/-- The result map of a whole scan is the fold of the optional assignments. -/
theorem processTags_toolResults (tools : List (String × ToolModel))
    (toolParams : List (String × JValue)) :
    ∀ (tags : List TagMatch) (st : Outcome),
      (processTags tools toolParams st tags).toolResults =
        tags.foldl
          (fun m tg => match tagOutcome tools toolParams tg with
            | some kv => setProp m kv.1 kv.2
            | none => m)
          st.toolResults := by
  intro tags
  induction tags with
  | nil => intro st; rfl
  | cons tg rest ih =>
    intro st
    have h1 : processTags tools toolParams st (tg :: rest) =
        processTags tools toolParams (processOneTag tools toolParams st tg) rest := rfl
    rw [h1, ih (processOneTag tools toolParams st tg), processOneTag_toolResults]
    simp only [List.foldl_cons]

/-- Folding optional assignments is folding assignments of the successes. -/
theorem foldl_optional_assign (tools : List (String × ToolModel))
    (toolParams : List (String × JValue)) :
    ∀ (tags : List TagMatch) (m : List (String × JValue)),
      tags.foldl
        (fun m tg => match tagOutcome tools toolParams tg with
          | some kv => setProp m kv.1 kv.2
          | none => m)
        m =
      (successList tools toolParams tags).foldl (fun m kv => setProp m kv.1 kv.2) m := by
  intro tags
  induction tags with
  | nil => intro m; rfl
  | cons tg rest ih =>
    intro m
    simp only [successList, List.filterMap_cons, List.foldl_cons]
    cases h : tagOutcome tools toolParams tg with
    | none => simpa [successList] using ih m
    | some kv => simpa [successList, List.foldl_cons] using ih (setProp m kv.1 kv.2)

/-- The keys after one assignment: an existing key leaves the key list alone,
a fresh key is appended. -/
theorem keys_setProp (m : List (String × JValue)) (k : String) (v : JValue) :
    (setProp m k v).map Prod.fst =
      if (m.map Prod.fst).contains k then m.map Prod.fst else m.map Prod.fst ++ [k] := by
  induction m with
  | nil => simp [setProp]
  | cons p t ih =>
    obtain ⟨k0, v0⟩ := p
    by_cases h0 : k0 = k
    · subst h0
      simp [setProp, List.contains_cons]
    · have hne : (k0 == k) = false := by simp [h0]
      have hkk : (k == k0) = false := by
        rw [beq_eq_false_iff_ne]
        exact fun hc => h0 hc.symm
      simp only [setProp, hne, Bool.false_eq_true, if_false, List.map_cons, List.contains_cons,
        hkk, Bool.false_or]
      rw [ih]
      by_cases hc : (List.map Prod.fst t).contains k
      · rw [if_pos hc, if_pos hc]
      · rw [if_neg hc, if_neg hc, List.cons_append]

/-- Keys of an assignment fold are the first-occurrence insertion order. -/
theorem keys_foldl_setProp :
    ∀ (l m : List (String × JValue)),
      ((l.foldl (fun m kv => setProp m kv.1 kv.2) m).map Prod.fst) =
        keyInsertOrder l (m.map Prod.fst) := by
  intro l
  induction l with
  | nil => intro m; rfl
  | cons kv rest ih =>
    intro m
    simp only [List.foldl_cons, keyInsertOrder] at ih ⊢
    rw [ih (setProp m kv.1 kv.2), keys_setProp]

/-- Lookup in an assignment fold reads the last assignment of the key. -/
theorem propGet_foldl_setProp (k : String) :
    ∀ (l m : List (String × JValue)),
      propGet (l.foldl (fun m kv => setProp m kv.1 kv.2) m) k =
        lastValueFor k l (propGet m k) := by
  intro l
  induction l with
  | nil => intro m; rfl
  | cons kv rest ih =>
    intro m
    simp only [List.foldl_cons, lastValueFor] at ih ⊢
    rw [ih (setProp m kv.1 kv.2), propGet_setProp]
    by_cases hk : k = kv.1
    · rw [if_pos hk, if_pos hk.symm]
    · rw [if_neg hk, if_neg (fun hc => hk hc.symm)]

/-- C8: every successful execution is stored under the composite key
`toolName_actionName`; the result map's keys are the first-occurrence
insertion order of the successes' composite keys; and the value stored under
a key is the result of the last success with that key, so a repeated
tool+action pair overwrites the earlier entry in place. -/
theorem claim_C8_result_map_order_and_overwrite
    (tools : List (String × ToolModel)) (toolParams : List (String × JValue)) (text : String) :
    (∀ tg ∈ extractTags text.toList, ∀ kv,
       tagOutcome tools toolParams tg = some kv →
       kv.1 = String.mk tg.tool ++ "_" ++ String.mk tg.action) ∧
    ((processToolActions tools toolParams text).toolResults.map Prod.fst =
       keyInsertOrder (successList tools toolParams (extractTags text.toList)) []) ∧
    (∀ k, propGet (processToolActions tools toolParams text).toolResults k =
       lastValueFor k (successList tools toolParams (extractTags text.toList)) none) := by
  refine ⟨?_, ?_, ?_⟩
  · intro tg _ kv hkv
    unfold tagOutcome at hkv
    split at hkv
    · exact absurd hkv (by simp)
    · split at hkv
      · split at hkv
        · exact absurd hkv (by simp)
        · split at hkv
          · split at hkv
            · simp only [Option.some.injEq] at hkv
              rw [← hkv]
            · exact absurd hkv (by simp)
          · exact absurd hkv (by simp)
      · exact absurd hkv (by simp)
  · unfold processToolActions
    rw [processTags_toolResults tools toolParams (extractTags text.toList) ⟨text, []⟩,
      foldl_optional_assign tools toolParams (extractTags text.toList) [],
      keys_foldl_setProp (successList tools toolParams (extractTags text.toList)) []]
    rfl
  · intro k
    unfold processToolActions
    rw [processTags_toolResults tools toolParams (extractTags text.toList) ⟨text, []⟩,
      foldl_optional_assign tools toolParams (extractTags text.toList) [],
      propGet_foldl_setProp k (successList tools toolParams (extractTags text.toList)) []]
    rfl

/-- Witness for C8: a completion invoking github_getPR, then github_info,
then github_getPR again. Keys keep first-occurrence order and the repeated
pair's entry holds the later execution's result. -/
theorem claim_C8_result_map_order_and_overwrite_witness :
    ((processToolActions sampleRegistry []
        "[TOOL_ACTION:github:getPR:\x7b\"number\": 1\x7d][TOOL_ACTION:github:info:\x7b\x7d][TOOL_ACTION:github:getPR:\x7b\"number\": 2\x7d]").toolResults.map
        Prod.fst = ["github_getPR", "github_info"]) ∧
    (propGet (processToolActions sampleRegistry []
        "[TOOL_ACTION:github:getPR:\x7b\"number\": 1\x7d][TOOL_ACTION:github:info:\x7b\x7d][TOOL_ACTION:github:getPR:\x7b\"number\": 2\x7d]").toolResults
        "github_getPR" =
      some (.obj [("action", .str "getPR"),
        ("got", .obj [("number", .num 2), ("owner", .str "octo"), ("repo", .str "repo")])])) := by
  have inst := claim_C8_result_map_order_and_overwrite sampleRegistry []
    "[TOOL_ACTION:github:getPR:\x7b\"number\": 1\x7d][TOOL_ACTION:github:info:\x7b\x7d][TOOL_ACTION:github:getPR:\x7b\"number\": 2\x7d]"
  refine ⟨?_, ?_⟩
  · rw [inst.2.1]; rfl
  · rw [inst.2.2 "github_getPR"]; rfl

/-- Counterexample to C2 as stated: a registry whose single tool is stored
under the map key "GitHub" but configured with the name "github". The tag's
token "github" equals the configured name up to case (here even exactly), yet
the dispatcher retrieves nothing — the exact map-key lookup fails — so the
tool's always-succeeding executor never runs: no result is recorded and the
span becomes an error marker, not a success marker. -/
theorem claim_C2_counterexample_case_mismatch :
    ((List.map (fun p => p.2) [("GitHub", sampleGitHubTool)]).any
       (fun t => lowerStr t.configName == lowerStr "github")) = true ∧
    mapGet [("GitHub", sampleGitHubTool)] "github" = none ∧
    processToolActions [("GitHub", sampleGitHubTool)] []
        "A [TOOL_ACTION:github:getPR:\x7b\"number\": 2\x7d] B" =
      ⟨"A [github getPR result: Error - Cannot read properties of undefined (reading \x27getAvailableActions\x27)] B",
       []⟩ := by
  refine ⟨rfl, rfl, rfl⟩

/-- C2 amended: resolution is two-staged. The existence check compares the
tag's token against every registered tool's configured name case-insensitively,
but retrieval is an exact map-key lookup with the token. When both succeed the
retrieved tool is the map-key one and dispatch proceeds on it; when the
configured-name check passes but no map key equals the token, the tag becomes
an inline error marker (the thrown TypeError's message) and nothing is
executed or recorded; when the configured-name check fails the tag becomes the
tool-not-found marker even if some map key equals the token. -/
theorem claim_C2_amended_two_stage_resolution :
    (∀ tools toolParams st tg params tool,
       jsonParse tg.params = some params →
       ((tools.map (fun p => p.2)).any
          (fun t => lowerStr t.configName == lowerStr (String.mk tg.tool))) = true →
       mapGet tools (String.mk tg.tool) = some tool →
       processOneTag tools toolParams st tg = resolvedDispatch toolParams st tg tool params) ∧
    (∀ tools toolParams st tg params,
       jsonParse tg.params = some params →
       ((tools.map (fun p => p.2)).any
          (fun t => lowerStr t.configName == lowerStr (String.mk tg.tool))) = true →
       mapGet tools (String.mk tg.tool) = none →
       processOneTag tools toolParams st tg =
         { st with response := replaceOnceS st.response tg.full (errorMarker (String.mk tg.tool) (String.mk tg.action) undefinedToolMsg) }) ∧
    (∀ tools toolParams st tg params,
       jsonParse tg.params = some params →
       ((tools.map (fun p => p.2)).any
          (fun t => lowerStr t.configName == lowerStr (String.mk tg.tool))) = false →
       processOneTag tools toolParams st tg =
         { st with response := replaceOnceS st.response tg.full (notFoundMarker (String.mk tg.tool) (String.mk tg.action)) }) := by
  refine ⟨?_, ?_, ?_⟩
  · intro tools toolParams st tg params tool hparse hany hget
    exact processOneTag_found tools toolParams st tg params tool hparse hany hget
  · intro tools toolParams st tg params hparse hany hget
    simp only [processOneTag, hparse, hany, if_pos, hget]
  · intro tools toolParams st tg params hparse hany
    simp only [processOneTag, hparse]
    rw [if_neg (by simp [hany])]

/-- Witness for the amended C2: with the token equal to the map key, the
retrieved tool is that entry and its action really executes and records. -/
theorem claim_C2_amended_two_stage_resolution_witness :
    processOneTag sampleRegistry [] ⟨"A [TOOL_ACTION:github:getPR:\x7b\"number\": 2\x7d] B", []⟩
        ⟨"[TOOL_ACTION:github:getPR:\x7b\"number\": 2\x7d]".toList, "github".toList,
          "github".toList, "getPR".toList, "\x7b\"number\": 2\x7d".toList⟩ =
      ⟨"A [github_getPR completed successfully] B",
       [("github_getPR", .obj [("action", .str "getPR"),
          ("got", .obj [("number", .num 2), ("owner", .str "octo"), ("repo", .str "repo")])])]⟩ := by
  rw [claim_C2_amended_two_stage_resolution.1 sampleRegistry []
    ⟨"A [TOOL_ACTION:github:getPR:\x7b\"number\": 2\x7d] B", []⟩
    ⟨"[TOOL_ACTION:github:getPR:\x7b\"number\": 2\x7d]".toList, "github".toList,
      "github".toList, "getPR".toList, "\x7b\"number\": 2\x7d".toList⟩
    (.obj [("number", .num 2)]) sampleGitHubTool rfl rfl rfl]
  rfl

/-- Counterexample to C6 as stated: the getPR schema requires `owner`, the
tag supplies no parameters, and both the GitHubTool contextual default and
the caller's ambient parameters supply `owner` — enhancement would satisfy
the schema — yet the dispatcher reports the field missing and does not
execute: the check runs on the tag's raw parameters, before enhancement. -/
theorem claim_C6_counterexample_check_precedes_enhancement :
    checkRequiredParameters (getActionInfo ownerRequiredTool "getPR")
        (.obj (enhanceToolParameters ownerRequiredTool "getPR" (.obj []) [("owner", .str "octo")])) = [] ∧
    processOneTag [("github", ownerRequiredTool)] [("owner", .str "octo")]
        ⟨"A [TOOL_ACTION:github:getPR:\x7b\x7d] B", []⟩
        ⟨"[TOOL_ACTION:github:getPR:\x7b\x7d]".toList, "github".toList, "github".toList,
          "getPR".toList, "\x7b\x7d".toList⟩ =
      ⟨"A [github getPR result: Error - Missing required parameters for getPR: owner] B", []⟩ := by
  exact ⟨rfl, rfl⟩

/-- C6 amended: the MissingRequiredParameter check runs on the tag's explicit
parameters before enhancement, so a schema-required field that the tag omits
triggers the failure and blocks execution even when the tool-specific
contextual defaults or the caller's ambient parameters would have supplied it
(the enhanced object satisfying the schema). -/
theorem claim_C6_amended_validation_before_enhancement :
    ∀ tools toolParams st tg params tool,
      jsonParse tg.params = some params →
      ((tools.map (fun p => p.2)).any
         (fun t => lowerStr t.configName == lowerStr (String.mk tg.tool))) = true →
      mapGet tools (String.mk tg.tool) = some tool →
      checkRequiredParameters (getActionInfo tool (String.mk tg.action)) params ≠ [] →
      checkRequiredParameters (getActionInfo tool (String.mk tg.action))
        (.obj (enhanceToolParameters tool (String.mk tg.action) params toolParams)) = [] →
      (processOneTag tools toolParams st tg).toolResults = st.toolResults ∧
      (processOneTag tools toolParams st tg).response =
        replaceOnceS st.response tg.full
          (errorMarker (String.mk tg.tool) (String.mk tg.action)
            (missingParamsMsg (String.mk tg.action)
              (checkRequiredParameters (getActionInfo tool (String.mk tg.action)) params))) := by
  intro tools toolParams st tg params tool hparse hany hget hmiss _henh
  rw [processOneTag_missing tools toolParams st tg params tool hparse hany hget hmiss]
  exact ⟨rfl, rfl⟩

/-- The owner fill never touches another key's binding. -/
theorem ghOwnerFill_propGet_ne (tool : ToolModel) (e0 : List (String × JValue)) (k : String)
    (hk : k ≠ "owner") : propGet (ghOwnerFill tool e0) k = propGet e0 k := by
  unfold ghOwnerFill
  by_cases hc : (!(truthyP e0 "owner") && optStrTruthy tool.repoOwner) = true
  · rw [if_pos hc, propGet_setProp, if_neg hk]
  · rw [if_neg hc]

/-- The repo fill never touches another key's binding. -/
theorem ghRepoFill_propGet_ne (tool : ToolModel) (e0 : List (String × JValue)) (k : String)
    (hk : k ≠ "repo") : propGet (ghRepoFill tool e0) k = propGet e0 k := by
  unfold ghRepoFill
  by_cases hc : (!(truthyP e0 "repo") && optStrTruthy tool.repoName) = true
  · rw [if_pos hc, propGet_setProp, if_neg hk]
  · rw [if_neg hc]

/-- A truthy owner value blocks the owner fill entirely. -/
theorem ghOwnerFill_of_truthy (tool : ToolModel) (e0 : List (String × JValue))
    (h : truthyP e0 "owner" = true) : ghOwnerFill tool e0 = e0 := by
  unfold ghOwnerFill
  rw [if_neg (by simp [h])]

/-- A truthy repo value blocks the repo fill entirely. -/
theorem ghRepoFill_of_truthy (tool : ToolModel) (e0 : List (String × JValue))
    (h : truthyP e0 "repo" = true) : ghRepoFill tool e0 = e0 := by
  unfold ghRepoFill
  rw [if_neg (by simp [h])]

/-- A falsy (or absent) owner value is overwritten by a truthy context owner. -/
theorem ghOwnerFill_fills (tool : ToolModel) (e0 : List (String × JValue)) (s : String)
    (hfalsy : truthyP e0 "owner" = false) (hro : tool.repoOwner = some s) (hs : s ≠ "") :
    propGet (ghOwnerFill tool e0) "owner" = some (.str s) := by
  unfold ghOwnerFill
  rw [if_pos (by simp [hfalsy, optStrTruthy, hro, hs]), hro, propGet_setProp, if_pos rfl]
  rfl

/-- A falsy (or absent) repo value is overwritten by a truthy context repo. -/
theorem ghRepoFill_fills (tool : ToolModel) (e0 : List (String × JValue)) (s : String)
    (hfalsy : truthyP e0 "repo" = false) (hrn : tool.repoName = some s) (hs : s ≠ "") :
    propGet (ghRepoFill tool e0) "repo" = some (.str s) := by
  unfold ghRepoFill
  rw [if_pos (by simp [hfalsy, optStrTruthy, hrn, hs]), hrn, propGet_setProp, if_pos rfl]
  rfl

/-- A present binding survives the whole contextual layer when its value is
truthy, whatever the key. -/
theorem ghContextFill_keeps_truthy (tool : ToolModel) (e0 : List (String × JValue))
    (k : String) (v : JValue) (hv : propGet e0 k = some v) (ht : jsTruthy v = true) :
    propGet (ghContextFill tool e0) k = some v := by
  unfold ghContextFill
  by_cases hc : (tool.ctorName == "GitHubTool") = true
  · rw [if_pos hc]
    by_cases hko : k = "owner"
    · subst hko
      rw [ghOwnerFill_of_truthy tool e0 (by simp [truthyP, hv, ht]),
        ghRepoFill_propGet_ne tool e0 "owner" (by decide), hv]
    · by_cases hkr : k = "repo"
      · subst hkr
        have h1 : propGet (ghOwnerFill tool e0) "repo" = some v := by
          rw [ghOwnerFill_propGet_ne tool e0 "repo" (by decide), hv]
        rw [ghRepoFill_of_truthy tool (ghOwnerFill tool e0) (by simp [truthyP, h1, ht]), h1]
      · rw [ghRepoFill_propGet_ne tool _ k hkr, ghOwnerFill_propGet_ne tool e0 k hko, hv]
  · rw [if_neg hc, hv]

/-- Counterexample to C7 as stated: a key explicitly present in the tag's
parameters is overwritten. With the explicit binding owner = "" (falsy) and a
GitHubTool whose context owner is "octo", enhancement rewrites the explicit
value. -/
theorem claim_C7_counterexample_falsy_explicit_overwritten :
    propGet (spreadFields (.obj [("owner", .str "")])) "owner" = some (.str "") ∧
    propGet (enhanceToolParameters sampleGitHubTool "getPR" (.obj [("owner", .str "")]) [])
        "owner" = some (.str "octo") ∧
    "octo" ≠ "" := by
  refine ⟨rfl, rfl, by decide⟩

/-- C7 amended: the enhanced object is the three-layer merge in which an
explicitly present key with a truthy value is never overwritten (nor is any
explicitly present key other than owner/repo, or any key of a non-GitHubTool);
the GitHubTool contextual layer assigns owner/repo from the tool's truthy
context values whenever the tag's value is absent or falsy — overwriting an
explicit falsy value — and the caller's ambient parameters fill, with their
first binding, exactly the keys still absent after the higher layers. -/
theorem claim_C7_amended_three_layer_merge :
    (∀ tool an params tp k v,
       propGet (spreadFields params) k = some v → jsTruthy v = true →
       propGet (enhanceToolParameters tool an params tp) k = some v) ∧
    (∀ tool an params tp k v, (tool.ctorName == "GitHubTool") = false →
       propGet (spreadFields params) k = some v →
       propGet (enhanceToolParameters tool an params tp) k = some v) ∧
    (∀ tool an params tp k v, k ≠ "owner" → k ≠ "repo" →
       propGet (spreadFields params) k = some v →
       propGet (enhanceToolParameters tool an params tp) k = some v) ∧
    (∀ tool an params tp s, (tool.ctorName == "GitHubTool") = true →
       tool.repoOwner = some s → s ≠ "" →
       truthyP (spreadFields params) "owner" = false →
       propGet (enhanceToolParameters tool an params tp) "owner" = some (.str s)) ∧
    (∀ tool an params tp s, (tool.ctorName == "GitHubTool") = true →
       tool.repoName = some s → s ≠ "" →
       truthyP (spreadFields params) "repo" = false →
       propGet (enhanceToolParameters tool an params tp) "repo" = some (.str s)) ∧
    (∀ tool an params tp k,
       propGet (ghContextFill tool (spreadFields params)) k = none →
       propGet (enhanceToolParameters tool an params tp) k = propGet tp k) := by
  have hkeep : ∀ (tool : ToolModel) an params tp k (v : JValue),
      propGet (ghContextFill tool (spreadFields params)) k = some v →
      propGet (enhanceToolParameters tool an params tp) k = some v := by
    intro tool an params tp k v h1
    unfold enhanceToolParameters
    rw [ambientFill_propGet tp (ghContextFill tool (spreadFields params)) k, h1]
  refine ⟨?_, ?_, ?_, ?_, ?_, ?_⟩
  · intro tool an params tp k v hv ht
    exact hkeep tool an params tp k v (ghContextFill_keeps_truthy tool _ k v hv ht)
  · intro tool an params tp k v hc hv
    refine hkeep tool an params tp k v ?_
    unfold ghContextFill
    rw [if_neg (by simp_all), hv]
  · intro tool an params tp k v hko hkr hv
    refine hkeep tool an params tp k v ?_
    unfold ghContextFill
    by_cases hc : (tool.ctorName == "GitHubTool") = true
    · rw [if_pos hc, ghRepoFill_propGet_ne tool _ k hkr, ghOwnerFill_propGet_ne tool _ k hko, hv]
    · rw [if_neg hc, hv]
  · intro tool an params tp s hc hro hs hfalsy
    refine hkeep tool an params tp "owner" (.str s) ?_
    unfold ghContextFill
    rw [if_pos hc, ghRepoFill_propGet_ne tool _ "owner" (by decide)]
    exact ghOwnerFill_fills tool _ s hfalsy hro hs
  · intro tool an params tp s hc hrn hs hfalsy
    refine hkeep tool an params tp "repo" (.str s) ?_
    unfold ghContextFill
    rw [if_pos hc]
    refine ghRepoFill_fills tool _ s ?_ hrn hs
    unfold truthyP at hfalsy ⊢
    rw [ghOwnerFill_propGet_ne tool _ "repo" (by decide)]
    exact hfalsy
  · intro tool an params tp k h1
    unfold enhanceToolParameters
    rw [ambientFill_propGet tp (ghContextFill tool (spreadFields params)) k, h1]

/-- Witness for the amended C7: the context fills the falsy explicit owner,
keeps the truthy explicit repo, and the ambient layer fills an absent key. -/
theorem claim_C7_amended_three_layer_merge_witness :
    propGet (enhanceToolParameters sampleGitHubTool "getPR"
        (.obj [("owner", .str ""), ("repo", .str "keepme")])
        [("extra", .num 5), ("repo", .str "ambient")]) "owner" = some (.str "octo") ∧
    propGet (enhanceToolParameters sampleGitHubTool "getPR"
        (.obj [("owner", .str ""), ("repo", .str "keepme")])
        [("extra", .num 5), ("repo", .str "ambient")]) "repo" = some (.str "keepme") ∧
    propGet (enhanceToolParameters sampleGitHubTool "getPR"
        (.obj [("owner", .str ""), ("repo", .str "keepme")])
        [("extra", .num 5), ("repo", .str "ambient")]) "extra" = some (.num 5) := by
  refine ⟨?_, ?_, ?_⟩
  · exact claim_C7_amended_three_layer_merge.2.2.2.1 sampleGitHubTool "getPR"
      (.obj [("owner", .str ""), ("repo", .str "keepme")])
      [("extra", .num 5), ("repo", .str "ambient")] "octo" rfl rfl (by decide) rfl
  · exact claim_C7_amended_three_layer_merge.1 sampleGitHubTool "getPR"
      (.obj [("owner", .str ""), ("repo", .str "keepme")])
      [("extra", .num 5), ("repo", .str "ambient")] "repo" (.str "keepme") rfl rfl
  · exact claim_C7_amended_three_layer_merge.2.2.2.2.2 sampleGitHubTool "getPR"
      (.obj [("owner", .str ""), ("repo", .str "keepme")])
      [("extra", .num 5), ("repo", .str "ambient")] "extra" rfl

/-- Witness for the amended C6 at the counterexample's input. -/
theorem claim_C6_amended_validation_before_enhancement_witness :
    (processOneTag [("github", ownerRequiredTool)] [("owner", .str "octo")]
        ⟨"A [TOOL_ACTION:github:getPR:\x7b\x7d] B", []⟩
        ⟨"[TOOL_ACTION:github:getPR:\x7b\x7d]".toList, "github".toList, "github".toList,
          "getPR".toList, "\x7b\x7d".toList⟩).toolResults = [] ∧
    (processOneTag [("github", ownerRequiredTool)] [("owner", .str "octo")]
        ⟨"A [TOOL_ACTION:github:getPR:\x7b\x7d] B", []⟩
        ⟨"[TOOL_ACTION:github:getPR:\x7b\x7d]".toList, "github".toList, "github".toList,
          "getPR".toList, "\x7b\x7d".toList⟩).response =
      "A [github getPR result: Error - Missing required parameters for getPR: owner] B" := by
  have inst := claim_C6_amended_validation_before_enhancement
    [("github", ownerRequiredTool)] [("owner", .str "octo")]
    ⟨"A [TOOL_ACTION:github:getPR:\x7b\x7d] B", []⟩
    ⟨"[TOOL_ACTION:github:getPR:\x7b\x7d]".toList, "github".toList, "github".toList,
      "getPR".toList, "\x7b\x7d".toList⟩
    (.obj []) ownerRequiredTool rfl rfl rfl (by decide) rfl
  exact ⟨inst.1, by rw [inst.2]; rfl⟩

/-- The digit-run accumulator ignores its accumulator. -/
theorem natDigitsAuxF_acc :
    ∀ (fuel n : Nat) (acc : List Char), n < fuel →
      natDigitsAuxF fuel n acc = natDigitsAuxF fuel n [] ++ acc := by
  intro fuel
  induction fuel with
  | zero => intro n acc h; omega
  | succ f ih =>
    intro n acc h
    simp only [natDigitsAuxF]
    by_cases h10 : n < 10
    · simp [h10]
    · have hd : n / 10 < f := by
        have h1 : n / 10 < n := Nat.div_lt_self (by omega) (by omega)
        omega
      rw [if_neg h10, if_neg h10, ih (n / 10) (digitOf (n % 10) :: acc) hd,
        ih (n / 10) [digitOf (n % 10)] hd, List.append_assoc, List.singleton_append]

/-- The digit-run worker is fuel-insensitive above its argument. -/
theorem natDigitsAuxF_fuel :
    ∀ (f1 f2 n : Nat) (acc : List Char), n < f1 → n < f2 →
      natDigitsAuxF f1 n acc = natDigitsAuxF f2 n acc := by
  intro f1
  induction f1 with
  | zero => intro f2 n acc h1 _; omega
  | succ f ih =>
    intro f2 n acc h1 h2
    match f2, h2 with
    | g + 1, h2 =>
      simp only [natDigitsAuxF]
      by_cases h10 : n < 10
      · simp [h10]
      · have hda : n / 10 < f := by
          have := Nat.div_lt_self (show 0 < n by omega) (show 1 < 10 by omega)
          omega
        have hdb : n / 10 < g := by
          have := Nat.div_lt_self (show 0 < n by omega) (show 1 < 10 by omega)
          omega
        rw [if_neg h10, if_neg h10]
        exact ih g (n / 10) _ hda hdb

/-- One-step unfolding of the decimal rendering. -/
theorem natDigitsL_unfold (n : Nat) :
    natDigitsL n = if n < 10 then [digitOf n] else natDigitsL (n / 10) ++ [digitOf (n % 10)] := by
  have h1 : natDigitsL n = natDigitsAuxF (n + 1) n [] := rfl
  rw [h1]
  simp only [natDigitsAuxF]
  by_cases h10 : n < 10
  · rw [if_pos h10, if_pos h10, Nat.mod_eq_of_lt h10]
  · have hda : n / 10 < n := Nat.div_lt_self (by omega) (by omega)
    have h2 : natDigitsL (n / 10) = natDigitsAuxF (n / 10 + 1) (n / 10) [] := rfl
    rw [if_neg h10, if_neg h10,
      natDigitsAuxF_acc n (n / 10) [digitOf (n % 10)] (by omega), h2,
      natDigitsAuxF_fuel n (n / 10 + 1) (n / 10) [] (by omega) (by omega)]

/-- The rendered digit of a value below ten. -/
theorem digitOf_facts (d : Nat) (h : d < 10) :
    digitChar (digitOf d) = true ∧ (digitOf d).toNat = 48 + d := by
  match d, h with
  | 0, _ => exact ⟨by decide, by decide⟩
  | 1, _ => exact ⟨by decide, by decide⟩
  | 2, _ => exact ⟨by decide, by decide⟩
  | 3, _ => exact ⟨by decide, by decide⟩
  | 4, _ => exact ⟨by decide, by decide⟩
  | 5, _ => exact ⟨by decide, by decide⟩
  | 6, _ => exact ⟨by decide, by decide⟩
  | 7, _ => exact ⟨by decide, by decide⟩
  | 8, _ => exact ⟨by decide, by decide⟩
  | 9, _ => exact ⟨by decide, by decide⟩

/-- Every character of a rendered natural is a digit. -/
theorem natDigitsL_all_digits (n : Nat) : ∀ c ∈ natDigitsL n, digitChar c = true := by
  induction n using Nat.strong_induction_on with
  | _ n ih =>
    rw [natDigitsL_unfold]
    by_cases h10 : n < 10
    · rw [if_pos h10]
      intro c hc
      rw [List.mem_singleton] at hc
      subst hc
      exact (digitOf_facts n h10).1
    · rw [if_neg h10]
      intro c hc
      rw [List.mem_append] at hc
      rcases hc with hc | hc
      · exact ih (n / 10) (Nat.div_lt_self (by omega) (by omega)) c hc
      · rw [List.mem_singleton] at hc
        subst hc
        exact (digitOf_facts (n % 10) (Nat.mod_lt _ (by omega))).1

/-- A rendered natural is never empty. -/
theorem natDigitsL_ne_nil (n : Nat) : natDigitsL n ≠ [] := by
  rw [natDigitsL_unfold]
  by_cases h10 : n < 10
  · simp [h10]
  · simp [h10]

/-- Reading the rendered digits back recovers the number. -/
theorem digitsVal_natDigitsL (n : Nat) : digitsVal (natDigitsL n) = n := by
  induction n using Nat.strong_induction_on with
  | _ n ih =>
    rw [natDigitsL_unfold]
    by_cases h10 : n < 10
    · rw [if_pos h10]
      simp only [digitsVal, List.foldl_cons, List.foldl_nil]
      rw [(digitOf_facts n h10).2]
      omega
    · rw [if_neg h10]
      simp only [digitsVal, List.foldl_append, List.foldl_cons, List.foldl_nil]
      have hrec := ih (n / 10) (Nat.div_lt_self (by omega) (by omega))
      simp only [digitsVal] at hrec
      rw [hrec, (digitOf_facts (n % 10) (Nat.mod_lt _ (by omega))).2]
      omega

/-- Grabbing digits from a digit run followed by a non-extending remainder
returns exactly the run. -/
theorem grabDigits_exact :
    ∀ (ds rest : List Char), (∀ c ∈ ds, digitChar c = true) → numStop rest = true →
      grabDigits (ds ++ rest) = (ds, rest) := by
  intro ds
  induction ds with
  | nil =>
    intro rest _ hstop
    cases rest with
    | nil => rfl
    | cons c t =>
      simp only [numStop, Bool.not_eq_true'] at hstop
      simp [grabDigits, hstop]
  | cons c t ih =>
    intro rest hall hstop
    have hc : digitChar c = true := hall c (by simp)
    simp only [List.cons_append, grabDigits, hc, if_pos]
    rw [show t.append rest = t ++ rest from rfl, ih rest (fun x hx => hall x (by simp [hx])) hstop]

/-- Scanning the rendered integer recovers it, leaving the remainder. -/
theorem scanIntStr_intChars (i : Int) (rest : List Char) (hstop : numStop rest = true) :
    scanIntStr (intChars i ++ rest) = some (i, rest) := by
  by_cases hneg : i < 0
  · have h1 : intChars i ++ rest = '-' :: (natDigitsL i.natAbs ++ rest) := by
      simp [intChars, hneg]
    rw [h1]
    have h2 : grabDigits (natDigitsL i.natAbs ++ rest) = (natDigitsL i.natAbs, rest) :=
      grabDigits_exact (natDigitsL i.natAbs) rest (natDigitsL_all_digits i.natAbs) hstop
    simp only [scanIntStr, h2]
    obtain ⟨c, t, hct⟩ : ∃ c t, natDigitsL i.natAbs = c :: t := by
      cases h : natDigitsL i.natAbs with
      | nil => exact absurd h (natDigitsL_ne_nil _)
      | cons c t => exact ⟨c, t, rfl⟩
    rw [hct]
    simp only
    rw [← hct, digitsVal_natDigitsL]
    have : -(i.natAbs : Int) = i := by omega
    rw [this]
  · have h1 : intChars i ++ rest = natDigitsL i.natAbs ++ rest := by
      simp [intChars, hneg]
    rw [h1]
    have h2 : grabDigits (natDigitsL i.natAbs ++ rest) = (natDigitsL i.natAbs, rest) :=
      grabDigits_exact (natDigitsL i.natAbs) rest (natDigitsL_all_digits i.natAbs) hstop
    obtain ⟨c, t, hct⟩ : ∃ c t, natDigitsL i.natAbs = c :: t := by
      cases h : natDigitsL i.natAbs with
      | nil => exact absurd h (natDigitsL_ne_nil _)
      | cons c t => exact ⟨c, t, rfl⟩
    have hcd : digitChar c = true := natDigitsL_all_digits i.natAbs c (by rw [hct]; simp)
    have hcm : c ≠ '-' := by
      intro hc
      subst hc
      exact absurd hcd (by decide)
    rw [hct, List.cons_append]
    have hexp : scanIntStr (c :: (t ++ rest)) =
        (match grabDigits (c :: (t ++ rest)) with
         | ([], _) => none
         | (ds, r) => some ((digitsVal ds : Int), r)) := by
      unfold scanIntStr
      split
      · rename_i heq
        rw [List.cons_eq_cons] at heq
        exact absurd heq.1 hcm
      · rfl
    rw [hexp, ← List.cons_append, ← hct, h2, hct]
    simp only
    rw [← hct, digitsVal_natDigitsL]
    have : (i.natAbs : Int) = i := by omega
    rw [this]

/-- Scanning one escaped character undoes the escape. -/
theorem scanStringBody_esc (c : Char) (acc rest : List Char) :
    scanStringBody acc (escChar c ++ rest) = scanStringBody (c :: acc) rest := by
  unfold escChar
  by_cases h1 : c = '"'
  · subst h1; rfl
  · rw [if_neg (by simp [h1])]
    by_cases h2 : c = '\\'
    · subst h2; rfl
    · rw [if_neg (by simp [h2])]
      by_cases h3 : c = '\n'
      · subst h3; rfl
      · rw [if_neg (by simp [h3])]
        by_cases h4 : c = '\t'
        · subst h4; rfl
        · rw [if_neg (by simp [h4])]
          by_cases h5 : c = '\r'
          · subst h5; rfl
          · rw [if_neg (by simp [h5])]
            show scanStringBody acc (c :: rest) = scanStringBody (c :: acc) rest
            have hstep : scanStringBody acc (c :: rest) =
                if (c == '\x22') = true then some (String.mk acc.reverse, rest)
                else if (c == '\\') = true then
                  (match rest with
                   | [] => none
                   | e :: r2 =>
                     match unescapeChar e with
                     | some ch => scanStringBody (ch :: acc) r2
                     | none => none)
                else scanStringBody (c :: acc) rest := by rw [scanStringBody.eq_def]
            rw [hstep, if_neg (by simp [h1]), if_neg (by simp [h2])]

/-- Scanning an escaped character run stops at the closing quote. -/
theorem scanStringBody_flat :
    ∀ (cs acc rest : List Char),
      scanStringBody acc (cs.flatMap escChar ++ '"' :: rest) =
        some (String.mk (acc.reverse ++ cs), rest) := by
  intro cs
  induction cs with
  | nil =>
    intro acc rest
    show scanStringBody acc ('"' :: rest) = _
    simp [scanStringBody.eq_def]
  | cons c t ih =>
    intro acc rest
    rw [List.flatMap_cons, List.append_assoc, scanStringBody_esc, ih (c :: acc) rest]
    simp

/-- Every serialized value begins with a visible character that closes no
bracket (so surrounding whitespace skipping and list/object delimiters can
never eat into it). -/
theorem serializeJ_head (v : JValue) :
    ∃ c t, serializeJ v = c :: t ∧ jsWsChar c = false ∧ c ≠ ']' ∧ c ≠ '}' ∧
      c ≠ ',' ∧ c ≠ ':' := by
  cases v with
  | null => exact ⟨'n', _, rfl, by decide, by decide, by decide, by decide, by decide⟩
  | bool b =>
    cases b with
    | true => exact ⟨'t', _, rfl, by decide, by decide, by decide, by decide, by decide⟩
    | false => exact ⟨'f', _, rfl, by decide, by decide, by decide, by decide, by decide⟩
  | str s => exact ⟨'"', _, rfl, by decide, by decide, by decide, by decide, by decide⟩
  | arr vs => exact ⟨'[', _, rfl, by decide, by decide, by decide, by decide, by decide⟩
  | obj ms => exact ⟨'{', _, rfl, by decide, by decide, by decide, by decide, by decide⟩
  | num i =>
    by_cases hneg : i < 0
    · refine ⟨'-', natDigitsL i.natAbs, ?_, by decide, by decide, by decide, by decide, by decide⟩
      simp [serializeJ, intChars, hneg]
    · obtain ⟨c, t, hct⟩ : ∃ c t, natDigitsL i.natAbs = c :: t := by
        cases h : natDigitsL i.natAbs with
        | nil => exact absurd h (natDigitsL_ne_nil _)
        | cons c t => exact ⟨c, t, rfl⟩
      have hcd : digitChar c = true := natDigitsL_all_digits i.natAbs c (by rw [hct]; simp)
      have hc48 : 48 ≤ c.toNat ∧ c.toNat ≤ 57 := by
        simp only [digitChar, Bool.and_eq_true, decide_eq_true_eq] at hcd
        exact ⟨hcd.1, hcd.2⟩
      refine ⟨c, t, ?_, ?_, ?_, ?_, ?_, ?_⟩
      · simp [serializeJ, intChars, hneg, hct]
      · simp only [jsWsChar, Bool.or_eq_false_iff, beq_eq_false_iff_ne, ne_eq]
        refine ⟨⟨⟨?_, ?_⟩, ?_⟩, ?_⟩ <;> (intro hc; rw [hc] at hc48; revert hc48; decide)
      · intro hc; rw [hc] at hc48; revert hc48; decide
      · intro hc; rw [hc] at hc48; revert hc48; decide
      · intro hc; rw [hc] at hc48; revert hc48; decide
      · intro hc; rw [hc] at hc48; revert hc48; decide

/-- Whitespace skipping is the identity in front of a serialized value. -/
theorem dropJsWs_serializeJ (v : JValue) (x : List Char) :
    dropJsWs (serializeJ v ++ x) = serializeJ v ++ x := by
  obtain ⟨c, t, hct, hws, _, _, _, _⟩ := serializeJ_head v
  rw [hct, List.cons_append]
  unfold dropJsWs
  rw [if_neg (by simp [hws])]

/-- Whitespace skipping passes an initial non-whitespace character. -/
theorem dropJsWs_cons_nws (c : Char) (t : List Char) (h : jsWsChar c = false) :
    dropJsWs (c :: t) = c :: t := by
  unfold dropJsWs
  rw [if_neg (by simp [h])]

/-- A digit begins no keyword, string, bracket or whitespace. -/
theorem digitChar_not_special (c : Char) (h : digitChar c = true) :
    jsWsChar c = false ∧ c ≠ 'n' ∧ c ≠ 't' ∧ c ≠ 'f' ∧ c ≠ '"' ∧ c ≠ '[' ∧ c ≠ '{' := by
  simp only [digitChar, Bool.and_eq_true, decide_eq_true_eq] at h
  obtain ⟨h1, h2⟩ := h
  have hr : 48 ≤ c.toNat ∧ c.toNat ≤ 57 := ⟨h1, h2⟩
  refine ⟨?_, ?_, ?_, ?_, ?_, ?_, ?_⟩
  · simp only [jsWsChar, Bool.or_eq_false_iff, beq_eq_false_iff_ne, ne_eq]
    refine ⟨⟨⟨?_, ?_⟩, ?_⟩, ?_⟩ <;> (intro hc; rw [hc] at hr; revert hr; decide)
  all_goals (intro hc; rw [hc] at hr; revert hr; decide)

/-- The value parser on input headed by a sign or digit reduces to the
numeral scanner. -/
theorem parseJVal_num_dispatch (f : Nat) (c : Char) (t : List Char)
    (hws : jsWsChar c = false) (hn : c ≠ 'n') (ht : c ≠ 't') (hf : c ≠ 'f')
    (hq : c ≠ '"') (hlb : c ≠ '[') (hob : c ≠ '{')
    (hg : (c == '-' || digitChar c) = true) :
    parseJVal (f + 1) (c :: t) =
      (match scanIntStr (c :: t) with
       | some (n, r2) => some (.num n, r2)
       | none => none) := by
  rw [parseJVal.eq_def]
  dsimp only
  rw [show dropJsWs (c :: t) = c :: t from dropJsWs_cons_nws c t hws]
  simp [hn, ht, hf, hq, hlb, hob, hg]

/-- The value parser behind an opening brace whose member list starts with a
quote reduces to the member parser. -/
theorem parseJVal_obj_cons (f : Nat) (t : List Char) :
    parseJVal (f + 1) ('{' :: ('"' :: t)) =
      (match parseJFields f ('"' :: t) with
       | some (ms, r3) => some (.obj (dedupFields ms), r3)
       | none => none) := rfl

/-- The value parser behind an opening bracket whose item list starts with a
non-whitespace, non-closing character reduces to the item parser. -/
theorem parseJVal_arr_cons (f : Nat) (c : Char) (t : List Char)
    (hws : jsWsChar c = false) (hc : c ≠ ']') :
    parseJVal (f + 1) ('[' :: (c :: t)) =
      (match parseJItems f (c :: t) with
       | some (vs, r3) => some (.arr vs, r3)
       | none => none) := by
  have hstep : parseJVal (f + 1) ('[' :: (c :: t)) =
      (match dropJsWs (c :: t) with
       | ']' :: r2 => some (.arr [], r2)
       | r2 =>
         match parseJItems f r2 with
         | some (vs, r3) => some (.arr vs, r3)
         | none => none) := by
    rfl
  rw [hstep, dropJsWs_cons_nws c t hws]
  split
  · rename_i r2 heq
    rw [List.cons_eq_cons] at heq
    exact absurd heq.1 hc
  · rfl

/-- Assignment of a fresh key appends. -/
theorem setProp_append_fresh (m : List (String × JValue)) (k : String) (v : JValue)
    (h : ∀ p ∈ m, p.1 ≠ k) : setProp m k v = m ++ [(k, v)] := by
  induction m with
  | nil => rfl
  | cons p t ih =>
    obtain ⟨k0, v0⟩ := p
    have h0 : k0 ≠ k := h (k0, v0) (by simp)
    simp only [setProp, show (k0 == k) = false by simp [h0], Bool.false_eq_true, if_false,
      List.cons_append]
    rw [ih (fun q hq => h q (by simp [hq]))]

/-- Collapsing duplicate keys is the identity on a duplicate-free member
list. -/
theorem dedupFields_of_uniq (ms : List (String × JValue)) (h : keysUniq ms = true) :
    dedupFields ms = ms := by
  suffices hgen : ∀ (l acc : List (String × JValue)), keysUniq l = true →
      (∀ p ∈ acc, ∀ q ∈ l, p.1 ≠ q.1) →
      l.foldl (fun acc p => setProp acc p.1 p.2) acc = acc ++ l by
    have := hgen ms [] h (by simp)
    simpa [dedupFields] using this
  intro l
  induction l with
  | nil => intro acc _ _; simp
  | cons p t ih =>
    intro acc hu hfresh
    obtain ⟨k0, v0⟩ := p
    simp only [keysUniq, Bool.and_eq_true, Bool.not_eq_true'] at hu
    obtain ⟨hnot, hut⟩ := hu
    simp only [List.foldl_cons]
    rw [setProp_append_fresh acc k0 v0 (fun q hq => hfresh q hq (k0, v0) (by simp))]
    rw [ih (acc ++ [(k0, v0)]) hut ?_]
    · simp
    · intro q hq r hr
      rw [List.mem_append] at hq
      rcases hq with hq | hq
      · exact hfresh q hq r (by simp [hr])
      · rw [List.mem_singleton] at hq
        subst hq
        intro hc
        have : t.any (fun p => p.1 == k0) = true := by
          rw [List.any_eq_true]
          exact ⟨r, hr, by simp [hc.symm]⟩
        rw [this] at hnot
        exact absurd hnot (by simp)

/-- The items of a non-empty array never start with whitespace or a digit or
a closing bracket, so the separators around them parse deterministically. -/
theorem numStop_serSep (vs : List JValue) (rest : List Char) :
    numStop (serSep vs ++ ']' :: rest) = true := by
  cases vs with
  | nil => rfl
  | cons v2 t2 => rfl

/-- The member separators likewise stop a numeral. -/
theorem numStop_serFieldSep (ms : List (String × JValue)) (rest : List Char) :
    numStop (serFieldSep ms ++ '}' :: rest) = true := by
  cases ms with
  | nil => rfl
  | cons kv t => obtain ⟨k2, v2⟩ := kv; rfl

mutual

/-- Parsing a serialized value consumes exactly it and rebuilds it, for any
remainder that cannot extend a numeral. -/
theorem rtJVal : ∀ (v : JValue) (fuel : Nat) (rest : List Char),
    wfJ v = true → (serializeJ v).length < fuel → numStop rest = true →
    parseJVal fuel (serializeJ v ++ rest) = some (v, rest)
  | .null, fuel, rest, _, hf, _ => by
    match fuel, hf with
    | f + 1, _ => rfl
  | .bool true, fuel, rest, _, hf, _ => by
    match fuel, hf with
    | f + 1, _ => rfl
  | .bool false, fuel, rest, _, hf, _ => by
    match fuel, hf with
    | f + 1, _ => rfl
  | .num i, fuel, rest, _, hf, hstop => by
    match fuel, hf with
    | f + 1, _ =>
      by_cases hneg : i < 0
      · have harg : serializeJ (.num i) ++ rest = '-' :: (natDigitsL i.natAbs ++ rest) := by
          simp [serializeJ, intChars, hneg]
        rw [harg, parseJVal_num_dispatch f '-' (natDigitsL i.natAbs ++ rest) (by decide)
          (by decide) (by decide) (by decide) (by decide) (by decide) (by decide) (by decide)]
        rw [show '-' :: (natDigitsL i.natAbs ++ rest) = intChars i ++ rest from by
          simp [intChars, hneg]]
        rw [scanIntStr_intChars i rest hstop]
      · obtain ⟨c, t, hct⟩ : ∃ c t, natDigitsL i.natAbs = c :: t := by
          cases h : natDigitsL i.natAbs with
          | nil => exact absurd h (natDigitsL_ne_nil _)
          | cons c t => exact ⟨c, t, rfl⟩
        have hcd : digitChar c = true := natDigitsL_all_digits i.natAbs c (by rw [hct]; simp)
        obtain ⟨hws, hn, ht, hfc, hq, hlb, hob⟩ := digitChar_not_special c hcd
        have harg : serializeJ (.num i) ++ rest = c :: (t ++ rest) := by
          simp [serializeJ, intChars, hneg, hct]
        rw [harg, parseJVal_num_dispatch f c (t ++ rest) hws hn ht hfc hq hlb hob
          (by simp [hcd])]
        rw [show c :: (t ++ rest) = intChars i ++ rest from by
          simp [intChars, hneg, hct]]
        rw [scanIntStr_intChars i rest hstop]
  | .str s, fuel, rest, _, hf, _ => by
    match fuel, hf with
    | f + 1, _ =>
      have harg : serializeJ (.str s) ++ rest =
          '"' :: (s.toList.flatMap escChar ++ '"' :: rest) := by
        simp [serializeJ]
      have hstep : parseJVal (f + 1) ('"' :: (s.toList.flatMap escChar ++ '"' :: rest)) =
          (match scanStringBody [] (s.toList.flatMap escChar ++ '"' :: rest) with
           | some (s2, r2) => some (.str s2, r2)
           | none => none) := by rfl
      rw [harg, hstep, scanStringBody_flat s.toList [] rest]
      rfl
  | .arr [], fuel, rest, _, hf, _ => by
    match fuel, hf with
    | f + 1, _ => rfl
  | .arr (v :: vs), fuel, rest, hwf, hf, _ => by
    match fuel, hf with
    | f + 1, hf =>
      obtain ⟨c, t, hct, hws, hbr, _, _, _⟩ := serializeJ_head v
      have hwi : wfItems (v :: vs) = true := hwf
      have hlen : (serItems (v :: vs)).length + 1 < f := by
        have h1 : (serializeJ (.arr (v :: vs))).length =
            (serItems (v :: vs)).length + 2 := by
          simp [serializeJ] <;> omega
        omega
      have key := rtItems v vs f rest hwi hlen
      have hshape : serItems (v :: vs) ++ ']' :: rest =
          c :: (t ++ (serSep vs ++ ']' :: rest)) := by
        simp [serItems, hct]
      have harg : serializeJ (.arr (v :: vs)) ++ rest =
          '[' :: (c :: (t ++ (serSep vs ++ ']' :: rest))) := by
        rw [show serializeJ (.arr (v :: vs)) = '[' :: (serItems (v :: vs) ++ [']']) from rfl]
        rw [List.cons_append, List.append_assoc, List.singleton_append, hshape]
      rw [harg, parseJVal_arr_cons f c (t ++ (serSep vs ++ ']' :: rest)) hws hbr,
        ← hshape, key]
  | .obj [], fuel, rest, _, hf, _ => by
    match fuel, hf with
    | f + 1, _ => rfl
  | .obj ((k, v) :: ms), fuel, rest, hwf, hf, _ => by
    match fuel, hf with
    | f + 1, hf =>
      have hwu : keysUniq ((k, v) :: ms) = true ∧ wfFields ((k, v) :: ms) = true := by
        have heq : wfJ (.obj ((k, v) :: ms)) =
            (keysUniq ((k, v) :: ms) && wfFields ((k, v) :: ms)) := rfl
        rw [heq, Bool.and_eq_true] at hwf
        exact hwf
      have hlen : (serFields ((k, v) :: ms)).length + 1 < f := by
        have h1 : (serializeJ (.obj ((k, v) :: ms))).length =
            (serFields ((k, v) :: ms)).length + 2 := by
          simp [serializeJ] <;> omega
        omega
      have key := rtFields (k, v) ms f rest hwu.2 hlen
      have hshape : serFields ((k, v) :: ms) ++ '}' :: rest =
          '"' :: (k.toList.flatMap escChar ++
            '"' :: (':' :: (serializeJ v ++ (serFieldSep ms ++ '}' :: rest)))) := by
        simp [serFields]
      have harg : serializeJ (.obj ((k, v) :: ms)) ++ rest =
          '{' :: ('"' :: (k.toList.flatMap escChar ++
            '"' :: (':' :: (serializeJ v ++ (serFieldSep ms ++ '}' :: rest))))) := by
        rw [show serializeJ (.obj ((k, v) :: ms)) =
            '{' :: (serFields ((k, v) :: ms) ++ ['}']) from rfl]
        rw [List.cons_append, List.append_assoc, List.singleton_append, hshape]
      rw [harg, parseJVal_obj_cons f (k.toList.flatMap escChar ++
            '"' :: (':' :: (serializeJ v ++ (serFieldSep ms ++ '}' :: rest)))),
        ← hshape, key]
      show some (JValue.obj (dedupFields ((k, v) :: ms)), rest) =
        some (JValue.obj ((k, v) :: ms), rest)
      rw [dedupFields_of_uniq ((k, v) :: ms) hwu.1]
  termination_by v _ _ _ _ _ => sizeOf v
  decreasing_by all_goals (simp_wf <;> omega)

/-- Parsing serialized items recovers the element list through the closing
bracket. -/
theorem rtItems : ∀ (v : JValue) (vs : List JValue) (fuel : Nat) (rest : List Char),
    wfItems (v :: vs) = true → (serItems (v :: vs)).length + 1 < fuel →
    parseJItems fuel (serItems (v :: vs) ++ ']' :: rest) = some (v :: vs, rest)
  | v, [], fuel, rest, hwf, hf => by
    match fuel, hf with
    | f + 1, hf =>
      have hwv : wfJ v = true := by
        have heq : wfItems [v] = (wfJ v && wfItems []) := rfl
        rw [heq, Bool.and_eq_true] at hwf
        exact hwf.1
      have hvlen : (serializeJ v).length < f := by
        have h1 : (serItems [v]).length = (serializeJ v).length := by
          simp [serItems, serSep] <;> omega
        omega
      have harg : serItems [v] ++ ']' :: rest =
          serializeJ v ++ (serSep ([] : List JValue) ++ ']' :: rest) := by
        simp [serItems]
      have hv := rtJVal v f (serSep ([] : List JValue) ++ ']' :: rest) hwv hvlen
        (numStop_serSep [] rest)
      have hstep : parseJItems (f + 1) (serItems [v] ++ ']' :: rest) =
          (match parseJVal f (serItems [v] ++ ']' :: rest) with
           | none => none
           | some (w, r) =>
             match dropJsWs r with
             | ',' :: r2 =>
               (match parseJItems f r2 with
                | some (ws, r3) => some (w :: ws, r3)
                | none => none)
             | ']' :: r2 => some ([w], r2)
             | _ => none) := by rfl
      rw [hstep, harg, hv]
      rfl
  | v, v2 :: t2, fuel, rest, hwf, hf => by
    match fuel, hf with
    | f + 1, hf =>
      have hw : wfJ v = true ∧ wfItems (v2 :: t2) = true := by
        have heq : wfItems (v :: v2 :: t2) = (wfJ v && wfItems (v2 :: t2)) := rfl
        rw [heq, Bool.and_eq_true] at hwf
        exact hwf
      have hvlen : (serializeJ v).length < f := by
        have h1 : (serItems (v :: v2 :: t2)).length =
            (serializeJ v).length + (serSep (v2 :: t2)).length := by
          simp [serItems] <;> omega
        omega
      have harg : serItems (v :: v2 :: t2) ++ ']' :: rest =
          serializeJ v ++ (serSep (v2 :: t2) ++ ']' :: rest) := by
        simp [serItems]
      have hv := rtJVal v f (serSep (v2 :: t2) ++ ']' :: rest) hw.1 hvlen
        (numStop_serSep (v2 :: t2) rest)
      have hstep : parseJItems (f + 1) (serItems (v :: v2 :: t2) ++ ']' :: rest) =
          (match parseJVal f (serItems (v :: v2 :: t2) ++ ']' :: rest) with
           | none => none
           | some (w, r) =>
             match dropJsWs r with
             | ',' :: r2 =>
               (match parseJItems f r2 with
                | some (ws, r3) => some (w :: ws, r3)
                | none => none)
             | ']' :: r2 => some ([w], r2)
             | _ => none) := by rfl
      rw [hstep, harg, hv]
      have hsep : serSep (v2 :: t2) ++ ']' :: rest =
          ',' :: (serItems (v2 :: t2) ++ ']' :: rest) := by
        simp [serSep, serItems]
      rw [hsep]
      have hlen2 : (serItems (v2 :: t2)).length + 1 < f := by
        obtain ⟨c, t, hct, _, _, _, _, _⟩ := serializeJ_head v
        have h1 : (serItems (v :: v2 :: t2)).length =
            (serializeJ v).length + 1 + (serItems (v2 :: t2)).length := by
          simp [serItems, serSep] <;> omega
        have h2 : 1 ≤ (serializeJ v).length := by rw [hct]; simp
        omega
      have key := rtItems v2 t2 f rest hw.2 hlen2
      show (match parseJItems f (serItems (v2 :: t2) ++ ']' :: rest) with
            | some (ws, r3) => some (v :: ws, r3)
            | none => none) = some (v :: v2 :: t2, rest)
      rw [key]
  termination_by v vs _ _ _ _ => sizeOf (v :: vs)
  decreasing_by all_goals (simp_wf <;> omega)

/-- Parsing serialized members recovers the member list through the closing
brace. -/
theorem rtFields : ∀ (kv : String × JValue) (ms : List (String × JValue)) (fuel : Nat)
    (rest : List Char),
    wfFields (kv :: ms) = true → (serFields (kv :: ms)).length + 1 < fuel →
    parseJFields fuel (serFields (kv :: ms) ++ '}' :: rest) = some (kv :: ms, rest)
  | (k, v), [], fuel, rest, hwf, hf => by
    match fuel, hf with
    | f + 1, hf =>
      have hwv : wfJ v = true := by
        have heq : wfFields ((k, v) :: ([] : List (String × JValue))) =
            (wfJ v && wfFields []) := rfl
        rw [heq, Bool.and_eq_true] at hwf
        exact hwf.1
      have hvlen : (serializeJ v).length < f := by
        have h1 : (serFields [(k, v)]).length =
            (k.toList.flatMap escChar).length + 3 + (serializeJ v).length := by
          simp [serFields, serFieldSep] <;> omega
        omega
      have harg : serFields [(k, v)] ++ '}' :: rest =
          '"' :: (k.toList.flatMap escChar ++
            '"' :: (':' :: (serializeJ v ++ (serFieldSep ([] : List (String × JValue)) ++
              '}' :: rest)))) := by
        simp [serFields]
      have hstep : parseJFields (f + 1) ('"' :: (k.toList.flatMap escChar ++
          '"' :: (':' :: (serializeJ v ++ (serFieldSep ([] : List (String × JValue)) ++
            '}' :: rest))))) =
          (match scanStringBody [] (k.toList.flatMap escChar ++
              '"' :: (':' :: (serializeJ v ++ (serFieldSep ([] : List (String × JValue)) ++
                '}' :: rest)))) with
           | none => none
           | some (key2, r1) =>
             match dropJsWs r1 with
             | ':' :: r2 =>
               match parseJVal f r2 with
               | none => none
               | some (w, r3) =>
                 match dropJsWs r3 with
                 | ',' :: r4 =>
                   (match parseJFields f r4 with
                    | some (ws, r5) => some ((key2, w) :: ws, r5)
                    | none => none)
                 | '}' :: r4 => some ([(key2, w)], r4)
                 | _ => none
             | _ => none) := by rfl
      rw [harg, hstep, scanStringBody_flat k.toList []
        (':' :: (serializeJ v ++ (serFieldSep ([] : List (String × JValue)) ++ '}' :: rest)))]
      show (match parseJVal f (serializeJ v ++ (serFieldSep ([] : List (String × JValue)) ++
            '}' :: rest)) with
            | none => none
            | some (w, r3) =>
              match dropJsWs r3 with
              | ',' :: r4 =>
                (match parseJFields f r4 with
                 | some (ws, r5) => some ((k, w) :: ws, r5)
                 | none => none)
              | '}' :: r4 => some ([(k, w)], r4)
              | _ => none) = some ([(k, v)], rest)
      have hv := rtJVal v f (serFieldSep ([] : List (String × JValue)) ++ '}' :: rest) hwv
        hvlen (numStop_serFieldSep [] rest)
      rw [hv]
      rfl
  | (k, v), (k2, v2) :: t2, fuel, rest, hwf, hf => by
    match fuel, hf with
    | f + 1, hf =>
      have hw : wfJ v = true ∧ wfFields ((k2, v2) :: t2) = true := by
        have heq : wfFields ((k, v) :: (k2, v2) :: t2) =
            (wfJ v && wfFields ((k2, v2) :: t2)) := rfl
        rw [heq, Bool.and_eq_true] at hwf
        exact hwf
      have hvlen : (serializeJ v).length < f := by
        have h1 : (serFields ((k, v) :: (k2, v2) :: t2)).length =
            (k.toList.flatMap escChar).length + 3 + (serializeJ v).length +
              (serFieldSep ((k2, v2) :: t2)).length := by
          simp [serFields] <;> omega
        omega
      have harg : serFields ((k, v) :: (k2, v2) :: t2) ++ '}' :: rest =
          '"' :: (k.toList.flatMap escChar ++
            '"' :: (':' :: (serializeJ v ++ (serFieldSep ((k2, v2) :: t2) ++
              '}' :: rest)))) := by
        simp [serFields]
      have hstep : parseJFields (f + 1) ('"' :: (k.toList.flatMap escChar ++
          '"' :: (':' :: (serializeJ v ++ (serFieldSep ((k2, v2) :: t2) ++
            '}' :: rest))))) =
          (match scanStringBody [] (k.toList.flatMap escChar ++
              '"' :: (':' :: (serializeJ v ++ (serFieldSep ((k2, v2) :: t2) ++
                '}' :: rest)))) with
           | none => none
           | some (key2, r1) =>
             match dropJsWs r1 with
             | ':' :: r2 =>
               match parseJVal f r2 with
               | none => none
               | some (w, r3) =>
                 match dropJsWs r3 with
                 | ',' :: r4 =>
                   (match parseJFields f r4 with
                    | some (ws, r5) => some ((key2, w) :: ws, r5)
                    | none => none)
                 | '}' :: r4 => some ([(key2, w)], r4)
                 | _ => none
             | _ => none) := by rfl
      rw [harg, hstep, scanStringBody_flat k.toList []
        (':' :: (serializeJ v ++ (serFieldSep ((k2, v2) :: t2) ++ '}' :: rest)))]
      show (match parseJVal f (serializeJ v ++ (serFieldSep ((k2, v2) :: t2) ++
            '}' :: rest)) with
            | none => none
            | some (w, r3) =>
              match dropJsWs r3 with
              | ',' :: r4 =>
                (match parseJFields f r4 with
                 | some (ws, r5) => some ((k, w) :: ws, r5)
                 | none => none)
              | '}' :: r4 => some ([(k, w)], r4)
              | _ => none) = some ((k, v) :: (k2, v2) :: t2, rest)
      have hv := rtJVal v f (serFieldSep ((k2, v2) :: t2) ++ '}' :: rest) hw.1 hvlen
        (numStop_serFieldSep ((k2, v2) :: t2) rest)
      rw [hv]
      have hsep : serFieldSep ((k2, v2) :: t2) ++ '}' :: rest =
          ',' :: (serFields ((k2, v2) :: t2) ++ '}' :: rest) := by
        simp [serFieldSep, serFields]
      rw [hsep]
      have hlen2 : (serFields ((k2, v2) :: t2)).length + 1 < f := by
        have h1 : (serFields ((k, v) :: (k2, v2) :: t2)).length =
            (k.toList.flatMap escChar).length + 3 + (serializeJ v).length + 1 +
              (serFields ((k2, v2) :: t2)).length := by
          simp [serFields, serFieldSep] <;> omega
        omega
      have key := rtFields (k2, v2) t2 f rest hw.2 hlen2
      show (match parseJFields f (serFields ((k2, v2) :: t2) ++ '}' :: rest) with
            | some (ws, r5) => some ((k, v) :: ws, r5)
            | none => none) = some ((k, v) :: (k2, v2) :: t2, rest)
      rw [key]
  termination_by kv ms _ _ _ _ => sizeOf (kv :: ms)
  decreasing_by all_goals (simp_wf <;> omega)

end

/-- Serializing any well-formed value and parsing it back yields the value. -/
theorem jsonParse_serializeJ (v : JValue) (h : wfJ v = true) :
    jsonParse (serializeJ v) = some v := by
  have hrt := rtJVal v ((serializeJ v).length + 1) [] h (by omega) rfl
  rw [List.append_nil] at hrt
  unfold jsonParse
  rw [hrt]
  rfl

/-- takeWhile over a satisfying prefix stops exactly at the first failing
character. -/
theorem takeWhile_all_stop (p : Char → Bool) :
    ∀ (l : List Char) (c : Char) (r : List Char), (∀ x ∈ l, p x = true) → p c = false →
      (l ++ c :: r).takeWhile p = l
  | [], c, r, _, hc => by simp [List.takeWhile_cons, hc]
  | x :: t, c, r, hall, hc => by
    have hx : p x = true := hall x (by simp)
    have ht := takeWhile_all_stop p t c r (fun y hy => hall y (by simp [hy])) hc
    simp [List.takeWhile_cons, hx, ht]

/-- The scanner worker yields nothing on empty input at every fuel. -/
theorem extractTagsAux_nil : ∀ fuel, extractTagsAux fuel [] = []
  | 0 => rfl
  | _ + 1 => rfl

/-- The anchored pattern on a serialized tag matches the whole text,
capturing the suffix-stripped tool token, the action token and the
serialized parameter text. -/
theorem matchTagAt_serialized (tool action : String) (p : JValue)
    (htne : tool.toList ≠ [])
    (htc : ∀ c ∈ tool.toList, (c == ':') = false)
    (hane : action.toList ≠ [])
    (hac : ∀ c ∈ action.toList, (c == ':') = false)
    (hbr : ∀ c ∈ serializeJ p, (c == ']') = false) :
    matchTagAt (serializeTag tool action p).toList =
      some ({ full := tagMarker ++ (tool.toList ++ ':' :: (action.toList ++ ':' ::
                (serializeJ p ++ [']']))),
              toolRaw := tool.toList,
              tool := stripToolSuffix tool.toList,
              action := action.toList,
              params := serializeJ p }, []) := by
  have hshape : (serializeTag tool action p).toList =
      tagMarker ++ (tool.toList ++ ':' :: (action.toList ++ ':' ::
        (serializeJ p ++ [']']))) := by
    simp [serializeTag, tagMarker, String.toList]
  have hne1 : tool.toList.isEmpty = false := by
    cases h : tool.toList with
    | nil => exact absurd h htne
    | cons a t => rfl
  have hne2 : action.toList.isEmpty = false := by
    cases h : action.toList with
    | nil => exact absurd h hane
    | cons a t => rfl
  obtain ⟨c0, t0, hct, _, _, _, _, _⟩ := serializeJ_head p
  have hne3 : (serializeJ p).isEmpty = false := by rw [hct]; rfl
  have htw1 : (tool.toList ++ ':' :: (action.toList ++ ':' ::
      (serializeJ p ++ [']']))).takeWhile (fun c => !(c == ':')) = tool.toList :=
    takeWhile_all_stop _ _ _ _ (fun x hx => by simp [htc x hx]) (by simp)
  have htw2 : (action.toList ++ ':' ::
      (serializeJ p ++ [']'])).takeWhile (fun c => !(c == ':')) = action.toList :=
    takeWhile_all_stop _ _ _ _ (fun x hx => by simp [hac x hx]) (by simp)
  have htw3 : (serializeJ p ++ ']' :: ([] : List Char)).takeWhile
      (fun c => !(c == ']')) = serializeJ p :=
    takeWhile_all_stop _ _ _ _ (fun x hx => by simp [hbr x hx]) (by simp)
  have hpre : tagMarker.isPrefixOf (tagMarker ++ (tool.toList ++ ':' ::
      (action.toList ++ ':' :: (serializeJ p ++ [']'])))) = true :=
    List.isPrefixOf_iff_prefix.mpr (List.prefix_append _ _)
  rw [hshape]
  unfold matchTagAt
  rw [if_pos hpre]
  simp only [List.drop_left, htw1, htw2, htw3, hne1, hne2, hne3, Bool.false_eq_true,
    if_false, List.append_assoc, List.cons_append]

/-- The scanner worker unfolded at positive fuel. -/
theorem extractTagsAux_succ (fuel : Nat) (s2 : List Char) :
    extractTagsAux (fuel + 1) s2 = (match matchTagAt s2 with
      | some (tg2, rem2) => tg2 :: extractTagsAux fuel rem2
      | none => (match s2 with
        | [] => []
        | _ :: tl => extractTagsAux fuel tl)) := by
  rfl

/-- One scanner step at a successful anchored match: record it and resume
after its closing bracket. -/
theorem extractTagsAux_succ_match (fuel : Nat) (s2 : List Char) (tg : TagMatch)
    (rem : List Char) (h : matchTagAt s2 = some (tg, rem)) :
    extractTagsAux (fuel + 1) s2 = tg :: extractTagsAux fuel rem := by
  rw [extractTagsAux_succ, h]

/-- The scanner on a lone serialized tag returns exactly that one match. -/
theorem extractTags_serialized (tool action : String) (p : JValue)
    (htne : tool.toList ≠ [])
    (htc : ∀ c ∈ tool.toList, (c == ':') = false)
    (hane : action.toList ≠ [])
    (hac : ∀ c ∈ action.toList, (c == ':') = false)
    (hbr : ∀ c ∈ serializeJ p, (c == ']') = false) :
    extractTags (serializeTag tool action p).toList =
      [{ full := tagMarker ++ (tool.toList ++ ':' :: (action.toList ++ ':' ::
           (serializeJ p ++ [']']))),
         toolRaw := tool.toList,
         tool := stripToolSuffix tool.toList,
         action := action.toList,
         params := serializeJ p }] := by
  have hm := matchTagAt_serialized tool action p htne htc hane hac hbr
  unfold extractTags
  rw [extractTagsAux_succ_match _ _ _ _ hm, extractTagsAux_nil]

/-- C4: the round trip is not the identity on the tool token — serializing
the token "githubTool" into tag syntax and extracting yields the token
"github": the regex group `(?:[Tt]ool)?` strips the suffix before capture. -/
theorem claim_C4_counterexample_tool_suffix_stripped :
    extractInvocations (serializeTag "githubTool" "getPR"
        (JValue.obj [("number", JValue.num 42)])) =
      [("github", "getPR", some (JValue.obj [("number", JValue.num 42)]))] ∧
    ("github" : String) ≠ "githubTool" := by
  refine ⟨?_, by decide⟩
  rfl

/-- C4 (amended): serializing a nonempty colon-free tool token, a nonempty
colon-free action token and a well-formed JSON parameter object whose
serialization contains no closing square bracket, then extracting, yields
exactly one invocation; its action and parameters are identical, and its
tool token is the serialized token with a trailing "Tool"/"tool" suffix
stripped — identical exactly when the token does not end in such a suffix. -/
theorem claim_C4_amended_round_trip_strips_tool_suffix
    (tool action : String) (ms : List (String × JValue))
    (htne : tool.toList ≠ [])
    (htc : ∀ c ∈ tool.toList, (c == ':') = false)
    (hane : action.toList ≠ [])
    (hac : ∀ c ∈ action.toList, (c == ':') = false)
    (hwp : wfJ (JValue.obj ms) = true)
    (hbr : ∀ c ∈ serializeJ (JValue.obj ms), (c == ']') = false) :
    extractInvocations (serializeTag tool action (JValue.obj ms)) =
      [(String.mk (stripToolSuffix tool.toList), action, some (JValue.obj ms))] := by
  unfold extractInvocations
  rw [extractTags_serialized tool action (JValue.obj ms) htne htc hane hac hbr]
  simp only [List.map]
  rw [jsonParse_serializeJ (JValue.obj ms) hwp]
  rfl

theorem claim_C4_amended_round_trip_strips_tool_suffix_witness :
    (("github" : String).toList ≠ [] ∧
     (∀ c ∈ ("github" : String).toList, (c == ':') = false) ∧
     (("getPR" : String).toList ≠ [] ∧
      ∀ c ∈ ("getPR" : String).toList, (c == ':') = false) ∧
     wfJ (JValue.obj [("number", JValue.num 42)]) = true ∧
     (∀ c ∈ serializeJ (JValue.obj [("number", JValue.num 42)]), (c == ']') = false)) ∧
    extractInvocations (serializeTag "github" "getPR"
        (JValue.obj [("number", JValue.num 42)])) =
      [(String.mk (stripToolSuffix ("github" : String).toList), "getPR",
        some (JValue.obj [("number", JValue.num 42)]))] :=
  ⟨⟨by decide, by decide, ⟨by decide, by decide⟩, by decide, by decide⟩,
   claim_C4_amended_round_trip_strips_tool_suffix "github" "getPR"
     [("number", JValue.num 42)] (by decide) (by decide) (by decide) (by decide)
     (by decide) (by decide)⟩

end AgentDock
